import Mathlib

/-!
Shallow embedding of the miniape phylogenetic-tree engine (JavaScript) and
proofs about it.

Conventions of the embedding:
* JS numbers used as node ids / array indices are `Nat`; branch lengths are
  modelled as `ℚ` (the claims under study never depend on floating-point
  rounding: lengths are only copied, permuted or summed symbolically).
* A JS function that can throw is embedded as `Except JsError _`; each error
  constructor names the concrete JS exception it stands for.
* JS array reads `a[i]` are embedded with `List.getD`/`List.get?`.  Where an
  out-of-range read would yield `undefined` and immediately crash the caller,
  the embedding raises the corresponding error; each such spot is commented.
* The recursive traversals of `reorderRcpp` are embedded as an explicit
  work-stack machine driven by a fuel counter (the source recursion, made
  iterative so that the kernel can evaluate it); with fuel
  `4 * edges + 8` the machine performs exactly the source's traversal for
  every tree-shaped input, and `none` models the stack overflow a cyclic
  edge list would cause in JS.
-/

namespace Miniape

/-- Concrete JS exceptions raised by the engine, by site. -/
inductive JsError where
  /-- RangeError: invalid array length (`new Array(Math.max(...[]) + 1)`
      after `Math.max()` returns `-Infinity`, or `new Array(NaN)`). -/
  | rangeInvalidArrayLength
  /-- TypeError: reading a property of `undefined` — an edge row fetched
      with an out-of-range index. -/
  | undefinedEdgeRow
  /-- "cannot unroot a tree with less than three edges." -/
  | tooFewEdges
  /-- "cannot unroot a tree where all nodes are singleton" -/
  | allNodesSingleton
  /-- "Basal edge not found." -/
  | basalEdgeNotFound
  /-- "incorrect node#: should be greater than the number of taxa" -/
  | badNode
  /-- "incorrect taxa#: should not be greater than the number of taxa" -/
  | badTaxa
  /-- "specified outgroup not in labels of the tree" -/
  | outgroupNotInLabels
  /-- "the specified outgroup is not monophyletic" -/
  | notMonophyletic
  /-- "ambiguous resolution of the root node: specify an outgroup" -/
  | ambiguousRoot
  /-- embedding artifact: the fuel of an iterative loop ran out (in JS this
      corresponds to an infinite loop / stack overflow on malformed input;
      unreachable with the fuel bounds used here on tree-shaped input). -/
  | outOfFuel
deriving Repr, DecidableEq

/-- The `order` tag of a phylo object ("cladewise" / "postorder"); absence of
the tag (R's "unordered") is `Option.none` at the use site. -/
inductive TreeOrder where
  | cladewise
  | postorder
deriving Repr, DecidableEq

/-- The phylo object (src/phylo.js, as produced by the Newick parser):
1-indexed node numbers, tips `1..n`, internal nodes `n+1..n+Nnode` with the
root at `n+1`; `edge` rows are `(parent, child)` pairs. -/
structure Phylo where
  edge : List (Nat × Nat)
  edgeLength : Option (List ℚ) := none
  tipLabel : List String := []
  nodeLabel : Option (List String) := none
  Nnode : Nat := 0
  rootEdge : Option ℚ := none
  order : Option TreeOrder := none
deriving Repr, DecidableEq

/-! ## Common utilities (common-utilities.js) -/

/-- `Math.max(...arr)` for a list of naturals (callers never pass an empty
list except `tabulate`, which handles that case itself). -/
def jsMax (l : List Nat) : Nat := l.foldl Nat.max 0

/-- `Array.prototype.indexOf` returning `none` for JS `-1`. -/
def jsIndexOf (l : List String) (s : String) : Option Nat :=
  l.findIdx? (fun x => x == s)

/-- The fold step of `tabulate`: `counts[val] = (counts[val] || 0) + 1`. -/
def tabStep (counts : List Nat) (v : Nat) : List Nat :=
  counts.set v (counts.getD v 0 + 1)

/-- `tabulate(arr)` (common-utilities.js).  On a non-empty list it allocates
`new Array(max + 1).fill(0)` and counts occurrences.  On the empty list the
JS code computes `Math.max() = -Infinity` and `new Array(-Infinity + 1)`
throws `RangeError: invalid array length`; that failure is the `none`
result. -/
def tabulate (arr : List Nat) : Option (List Nat) :=
  match arr with
  | [] => none
  | _ => some (arr.foldl tabStep (List.replicate (jsMax arr + 1) 0))

/-- `tabulate` lifted into the error monad (`none` = the RangeError). -/
def tabulateE (arr : List Nat) : Except JsError (List Nat) :=
  match tabulate arr with
  | some t => .ok t
  | none => .error .rangeInvalidArrayLength

/-- Tie policies of `rank` (common-utilities.js).  The `"random"` policy
draws from `Math.random()` and is nondeterministic; it is not used by any
engine (dropTip ranks with the default `"average"`), so it is not part of
the embedding. -/
inductive TiesMethod where
  | average
  | first
  | last
  | min
  | max
deriving Repr, DecidableEq

/-- One sorted tie group of `rank`: assign ranks `currentRank..` to the
group's original indices according to the tie policy. -/
def rankGroup (m : TiesMethod) (currentRank : ℚ) (group : List (ℚ × Nat))
    (ranks : List ℚ) : List ℚ :=
  let g := group.length
  match m with
  | .first =>
      (List.range g).foldl
        (fun r k => r.set ((group.getD k (0, 0)).2) (currentRank + k)) ranks
  | .last =>
      (List.range g).foldl
        (fun r k => r.set ((group.getD k (0, 0)).2) (currentRank + g - 1 - k))
        ranks
  | .min =>
      (List.range g).foldl
        (fun r k => r.set ((group.getD k (0, 0)).2) currentRank) ranks
  | .max =>
      (List.range g).foldl
        (fun r k => r.set ((group.getD k (0, 0)).2) (currentRank + g - 1)) ranks
  | .average =>
      let avg := currentRank + (g - 1) / 2
      (List.range g).foldl
        (fun r k => r.set ((group.getD k (0, 0)).2) avg) ranks

/-- Split the sorted `(value, index)` list into maximal runs of equal
values (the tie groups of `rank`). -/
def tieGroups : List (ℚ × Nat) → List (List (ℚ × Nat))
  | [] => []
  | x :: xs =>
      match tieGroups xs with
      | [] => [[x]]
      | g :: gs =>
          match g with
          | [] => [x] :: gs
          | y :: _ => if x.1 = y.1 then (x :: g) :: gs else [x] :: g :: gs

/-- `rank(arr, {tiesMethod})` (common-utilities.js) for inputs without
missing values (the engines never pass `null`/`NaN`): sort by value with
the original index as tie-break, then assign ranks groupwise. -/
def rank (arr : List ℚ) (m : TiesMethod := .average) : List ℚ :=
  let indexed := arr.enum.map (fun p => (p.2, p.1))
  let sorted := indexed.mergeSort
    (fun a b => a.1 < b.1 || (a.1 == b.1 && a.2 ≤ b.2))
  let groups := tieGroups sorted
  (groups.foldl
    (fun (st : List ℚ × ℚ) g =>
      (rankGroup m st.2 g st.1, st.2 + g.length))
    (List.replicate arr.length 0, 1)).1

/-! ## Node depths (node.js) -/

/-- `nodeDepth(ntip, e1, e2, xx, method)` (node.js): tips get depth 1, then
one sweep over the (postorder) edge list; method 1 sums descendant depths
into the ancestor, method 2 assigns `max(child) + 1`-style even spacing. -/
def nodeDepth (ntip : Nat) (e1 e2 : List Nat) (xx : List ℚ)
    (method : Nat) : List ℚ :=
  let xx := (List.range ntip).foldl (fun x i => x.set i 1) xx
  if method = 1 then
    (e1.zip e2).foldl
      (fun x (e : Nat × Nat) =>
        x.set (e.1 - 1) (x.getD (e.1 - 1) 0 + x.getD (e.2 - 1) 0)) xx
  else
    (e1.zip e2).foldl
      (fun x (e : Nat × Nat) =>
        if x.getD (e.1 - 1) 0 ≠ 0 ∧ x.getD (e.1 - 1) 0 ≥ x.getD (e.2 - 1) 0 + 1
        then x
        else x.set (e.1 - 1) (x.getD (e.2 - 1) 0 + 1)) xx

/-! ## Reorder engine (reorder.js) -/

/-- The counting-sort tables of `reorderRcpp`: `xj` (children per internal
node), `xi` (prefix sums) and `L` (edge indices bucketed by parent). -/
structure ReorderTables where
  e1 : List Nat
  e2 : List Nat
  xi : List Nat
  xj : List Nat
  L : List Nat
deriving Repr, DecidableEq

/-- Build the `xj`, `xi`, `L` tables of `reorderRcpp` from the edge matrix
(nodes 1-indexed, internal nodes `> nTips`). -/
def buildTables (orig : List (Nat × Nat)) (nTips : Nat) : ReorderTables :=
  let n := orig.length
  let e1 := orig.map (·.1)
  let e2 := orig.map (·.2)
  let m := jsMax e1
  let nnode := m - nTips
  let xj := e1.foldl (fun xj p => xj.set (p - nTips - 1) (xj.getD (p - nTips - 1) 0 + 1))
    (List.replicate nnode 0)
  let xi := (List.range nnode).foldl
    (fun xi i => if i = 0 then xi else xi.set i (xi.getD (i-1) 0 + xj.getD (i-1) 0))
    (List.replicate nnode 0)
  let L := (e1.enum.foldl
    (fun (st : List Nat × List Nat) (p : Nat × Nat) =>
      let k := p.2 - nTips - 1
      let j := st.2.getD k 0
      (st.1.set (xi.getD k 0 + j) p.1, st.2.set k (j + 1)))
    (List.replicate n 0, List.replicate nnode 0)).1
  { e1 := e1, e2 := e2, xi := xi, xj := xj, L := L }

/-- One frame of the iterative depth-first traversal: the internal node
being expanded (as its 0-based table index) and the next child position
`j` within its bucket. -/
structure FooFrame where
  i : Nat
  j : Nat
deriving Repr, DecidableEq

/-- `foo_reorderRcpp` (cladewise emission), the source's recursion run as an
explicit work-stack.  Emits `neworder[iii] = k; iii++` for each bucket
entry, descending into internal children first, exactly as the recursive
JS does. -/
def fooMachine (nTips : Nat) (t : ReorderTables) :
    Nat → List FooFrame → List Nat → Nat → Option (List Nat)
  | 0, _, _, _ => none
  | _ + 1, [], nw, _ => some nw
  | fuel + 1, fr :: stack, nw, iii =>
      if fr.j < t.xj.getD fr.i 0 then
        let k := t.L.getD (t.xi.getD fr.i 0 + fr.j) 0
        let nw := nw.set iii k
        let iii := iii + 1
        let child := t.e2.getD k 0
        if nTips < child then
          fooMachine nTips t fuel
            ({ i := child - nTips - 1, j := 0 } :: { fr with j := fr.j + 1 } :: stack)
            nw iii
        else
          fooMachine nTips t fuel ({ fr with j := fr.j + 1 } :: stack) nw iii
      else
        fooMachine nTips t fuel stack nw iii

/-- The two phases of a `bar_reorderRcpp` frame: first the reverse emission
loop over the node's bucket, then the forward recursion into internal
children. -/
inductive BarPhase where
  | emit (j : Nat)
  | recurse (j : Nat)
deriving Repr, DecidableEq

/-- `bar_reorderRcpp` (postorder / pruningwise emission) as an explicit
work-stack.  The emission loop runs `j = xj[i]-1 .. 0` writing
`neworder[iii] = L[xi[i]+j] + 1; iii--` — the `+ 1` is literal in the
source ("Note: ot sure if +1 is needed here"); the recursion loop then
descends into internal children in forward bucket order.  `iii` counts
down from `n - 1`; writes are within range for tree-shaped input. -/
def barMachine (nTips : Nat) (t : ReorderTables) :
    Nat → List (Nat × BarPhase) → List Nat → Int → Option (List Nat)
  | 0, _, _, _ => none
  | _ + 1, [], nw, _ => some nw
  | fuel + 1, (i, .emit rem) :: stack, nw, iii =>
      -- the source loop runs j from xj[i]-1 down to 0; `rem` counts the
      -- entries still to emit, so the source index is `rem - 1`.
      match rem with
      | r + 1 =>
        let k := t.L.getD (t.xi.getD i 0 + r) 0 + 1
        let nw := if 0 ≤ iii then nw.set iii.toNat k else nw
        barMachine nTips t fuel ((i, .emit r) :: stack) nw (iii - 1)
      | 0 =>
        barMachine nTips t fuel ((i, .recurse 0) :: stack) nw iii
  | fuel + 1, (i, .recurse j) :: stack, nw, iii =>
      if j < t.xj.getD i 0 then
        let k := t.e2.getD (t.L.getD (t.xi.getD i 0 + j) 0) 0
        if nTips < k then
          barMachine nTips t fuel
            ((k - nTips - 1, .emit (t.xj.getD (k - nTips - 1) 0))
              :: (i, .recurse (j + 1)) :: stack) nw iii
        else
          barMachine nTips t fuel ((i, .recurse (j + 1)) :: stack) nw iii
      else
        barMachine nTips t fuel stack nw iii

/-- `reorderRcpp(orig, nTips, root, order)` (reorder.js): build the
counting-sort tables, then emit the new edge order with `foo_reorderRcpp`
(order 1, cladewise, `iii` starting at 0) or `bar_reorderRcpp` (order 2,
postorder, `iii` starting at `n - 1`).  Orders other than 1/2 throw. -/
def reorderRcpp (orig : List (Nat × Nat)) (nTips : Nat) (root : Nat)
    (ord : Nat) : Except JsError (List Nat) :=
  let n := orig.length
  let t := buildTables orig nTips
  let fuel := 4 * n + 8
  if ord = 1 then
    match fooMachine nTips t fuel [{ i := root - nTips - 1, j := 0 }]
        (List.replicate n 0) 0 with
    | some nw => .ok nw
    | none => .error .outOfFuel
  else if ord = 2 then
    let i0 := root - nTips - 1
    match barMachine nTips t fuel [(i0, .emit (t.xj.getD i0 0))]
        (List.replicate n 0) (n - 1 : Int) with
    | some nw => .ok nw
    | none => .error .outOfFuel
  else .error .outOfFuel

/-- The numeric order code of `reorder`: "cladewise" ↦ 1, "postorder" ↦ 2. -/
def TreeOrder.code : TreeOrder → Nat
  | .cladewise => 1
  | .postorder => 2

/-- The raw edge rows produced by `_reorder_ape` (reorder.js):
`tree.edge = neworder.map(idx => tree.edge[idx])`.  A JS read past the end
of `tree.edge` yields `undefined`; such a row is `none` here.  The
early-return paths (already ordered / single internal node / fewer than two
tips, the check done by the wrapping `reorder`) leave the rows untouched. -/
def reorderRowsRaw (tree : Phylo) (ord : TreeOrder) :
    Except JsError (List (Option (Nat × Nat))) :=
  let n := tree.tipLabel.length
  if n < 2 then .ok (tree.edge.map some)
  else if tree.order = some ord then .ok (tree.edge.map some)
  else if tree.Nnode = 1 then .ok (tree.edge.map some)
  else do
    let nw ← reorderRcpp tree.edge n (n + 1) ord.code
    .ok (nw.map (fun idx => tree.edge.get? idx))

/-- `reorder(tree, order)` (reorder.js), composed with `_reorder_ape`:
reorders the edge matrix and branch lengths by `neworder` and sets the
`order` tag.  In JS an out-of-range index leaves an `undefined` row in
`tree.edge`; every caller of `reorder` (drop-tip, collapse-singles,
rooting, propPart) immediately dereferences the rows
(`phy.edge.map(row => row[0])` or the like) and throws a TypeError, so the
corruption surfaces here as `.error .undefinedEdgeRow`. -/
def reorderTree (tree : Phylo) (ord : TreeOrder) : Except JsError Phylo :=
  let n := tree.tipLabel.length
  if n < 2 then .ok tree
  else if tree.order = some ord then .ok tree
  else if tree.Nnode = 1 then .ok tree
  else do
    let nw ← reorderRcpp tree.edge n (n + 1) ord.code
    let rows := nw.map (fun idx => tree.edge.get? idx)
    if rows.any (·.isNone) then .error .undefinedEdgeRow
    else
      .ok { tree with
            edge := rows.filterMap id,
            edgeLength := tree.edgeLength.map (fun el => nw.map (fun idx => el.getD idx 0)),
            order := some ord }

/-! ## Collapse singles (collapse-singles.js) -/

/-- `hasSingles` for a single tree: tabulate the parent column and test for
a count equal to 1 (the tabulate RangeError on an edgeless tree propagates). -/
def hasSingles (tree : Phylo) : Except JsError Bool := do
  let tab ← tabulateE (tree.edge.map (·.1))
  .ok (tab.any (· == 1))

/-- State of the basal-singleton stripping loop of `collapseSingles`:
current root, parent/child columns, edge lengths and the accumulated
root-edge length. -/
structure BasalState where
  ROOT : Nat
  e1 : List Nat
  e2 : List Nat
  el : List ℚ
  ROOTEDGE : ℚ
deriving Repr, DecidableEq

/-- The `while (true)` basal-singleton loop of `collapseSingles`: while the
tabulated count of the current root is exactly 1, replace the root by the
child of its unique outgoing edge and splice that edge out (accumulating
its length when `rootEdge` is requested).  Each pass either returns or
removes one edge, so fuel `e1.length + 1` performs the loop exactly;
`tabulate` of an emptied parent column raises the RangeError just as the
JS does. -/
def basalLoop (wbl rootEdgeFlag : Bool) :
    Nat → BasalState → Except JsError BasalState
  | 0, _ => .error .outOfFuel
  | fuel + 1, st => do
      let tab ← tabulateE st.e1
      if tab.getD st.ROOT 0 = 1 then
        match st.e1.findIdx? (fun x => x == st.ROOT) with
        | none => .ok st
        | some i =>
            let st' : BasalState :=
              { ROOT := st.e2.getD i 0,
                e1 := st.e1.eraseIdx i,
                e2 := st.e2.eraseIdx i,
                el := if wbl then st.el.eraseIdx i else st.el,
                ROOTEDGE :=
                  if wbl ∧ rootEdgeFlag then st.ROOTEDGE + st.el.getD i 0
                  else st.ROOTEDGE }
            basalLoop wbl rootEdgeFlag fuel st'
      else .ok st

/-- `[...new Set(l)]`: deduplicate keeping first occurrences, as a JS Set
does. -/
def jsUniq (l : List Nat) : List Nat :=
  l.foldl (fun acc v => if v ∈ acc then acc else acc ++ [v]) []

/-- `collapseSingles(tree, rootEdge)` (collapse-singles.js).  Reorders
cladewise, returns unchanged when every internal node in the tabulated
parent column has two or more children, otherwise strips basal singleton
edges, splices out the remaining single-child internal nodes (summing
lengths along the merged edges), and renumbers internal nodes. -/
def collapseSingles (tree : Phylo) (rootEdgeFlag : Bool := false) :
    Except JsError Phylo := do
  let n := tree.tipLabel.length
  if n = 0 then return tree
  let tree ← reorderTree tree .cladewise
  let e1 := tree.edge.map (·.1)
  let e2 := tree.edge.map (·.2)
  let tab ← tabulateE e1
  -- the JS loop runs i = n+1 .. tab.length-1 and fails on any count ≤ 1
  let allInternalMultiple := (tab.drop (n + 1)).all (fun c => 1 < c)
  if allInternalMultiple then return tree
  let wbl := tree.edgeLength.isSome
  let el := tree.edgeLength.getD []
  let rootEdgeFlag := if wbl then rootEdgeFlag else false
  let st ← basalLoop wbl rootEdgeFlag (e1.length + 1)
    { ROOT := n + 1, e1 := e1, e2 := e2, el := el, ROOTEDGE := 0 }
  let tabE1 ← tabulateE st.e1
  let singles := (List.range tabE1.length).filter
    (fun i => n < i && tabE1.getD i 0 == 1)
  let st :=
    if singles.isEmpty then st
    else
      -- first occurrence of each singleton in e1 (a singleton has exactly
      -- one outgoing edge, so `indexOf` finds it), processed in descending
      -- index order; `jj` points at the singleton's incoming edge.
      let ii := (singles.map
          (fun s => (st.e1.findIdx? (fun x => x == s)).getD st.e1.length)).mergeSort
        (fun a b => decide (b ≤ a))
      let jj := ii.map
        (fun idx => (st.e2.findIdx? (fun x => x == st.e1.getD idx 0)).getD st.e2.length)
      let spliced := (jj.zip ii).foldl
        (fun (p : List Nat × List ℚ) (ji : Nat × Nat) =>
          (p.1.set ji.1 (p.1.getD ji.2 0),
           if wbl then p.2.set ji.1 (p.2.getD ji.1 0 + p.2.getD ji.2 0) else p.2))
        (st.e2, st.el)
      let e2' := ii.foldl (fun l idx => l.eraseIdx idx) spliced.1
      let el' := if wbl then ii.foldl (fun l idx => l.eraseIdx idx) spliced.2 else spliced.2
      let e1' := ii.foldl (fun l idx => l.eraseIdx idx) st.e1
      { st with e1 := e1', e2 := e2', el := el' }
  let Nnode := st.e1.length - n + 1
  let oldnodes := jsUniq st.e1
  let nodeLabel := tree.nodeLabel.map
    (fun nl => oldnodes.map (fun val => nl.getD (val - n - 1) ""))
  let maxOld := jsMax oldnodes
  let newNb := (List.replicate maxOld 0).set (st.ROOT - 1) (n + 1)
  let internalNodes := (jsUniq (st.e2.filter (fun v => n < v))).mergeSort
    (fun a b => decide (a ≤ b))
  let newNumbers := List.range' (n + 2) (Nnode - 1)
  let newNb := (internalNodes.zip newNumbers).foldl
    (fun nb (p : Nat × Nat) => nb.set (p.1 - 1) p.2) newNb
  let e2 := st.e2.map (fun v => if n < v then newNb.getD (v - 1) 0 else v)
  let e1 := st.e1.map (fun v => newNb.getD (v - 1) 0)
  .ok { tree with
        edge := e1.zip e2,
        Nnode := Nnode,
        rootEdge := if wbl ∧ rootEdgeFlag then some st.ROOTEDGE else tree.rootEdge,
        edgeLength := if wbl then some st.el else tree.edgeLength,
        nodeLabel := nodeLabel }

/-! ## Rooting predicate (root.js) -/

/-- The parent-count table of `isRooted`: a JS object built by
`parentCounts[parent] = (parentCounts[parent] || 0) + 1`. -/
def parentCounts (edges : List (Nat × Nat)) : Nat → Nat :=
  edges.foldl (fun f e => Function.update f e.1 (f e.1 + 1)) (fun _ => 0)

/-- `isRooted(phy, ntips)` (root.js): true if `rootEdge` is set, otherwise
true iff the root `ntips + 1` appears as a parent in at most two edges. -/
def isRooted (phy : Phylo) (ntips : Nat) : Bool :=
  if phy.rootEdge.isSome then true
  else decide (parentCounts phy.edge (ntips + 1) ≤ 2)

/-! ## Partition engine (dist-topo.js) -/

/-- `bipartition2(orig, nTips)` (dist-topo.js): one sweep over the
(postorder) edge matrix building each internal node's clade as the
concatenation of its children's clades (a tip child contributes its own
id), then each clade is sorted ascending. -/
def bipartition2 (orig : List (Nat × Nat)) (nTips : Nat) : List (List Nat) :=
  let parent := orig.map (·.1)
  let m := jsMax parent
  let nnode := m - nTips
  let out := orig.foldl
    (fun (out : List (List Nat)) (e : Nat × Nat) =>
      let j := e.1 - nTips - 1
      if nTips < e.2 then
        out.set j (out.getD j [] ++ out.getD (e.2 - nTips - 1) [])
      else
        out.set j (out.getD j [] ++ [e.2]))
    (List.replicate nnode [])
  out.map (fun p => p.mergeSort (fun a b => decide (a ≤ b)))

/-- The registry produced by `propPart`: clade list, matching counts, and
the shared tip labels. -/
structure PropPartResult where
  partitions : List (List Nat)
  number : List Nat
  labels : List String
deriving Repr, DecidableEq

/-- `propPart2(trees, nTips)` (dist-topo.js): seed the registry with the
first tree's bipartitions (entry 0's count set to the number of trees),
then for each further tree's non-trivial clades do a linear registry scan
from entry 1: increment the first match, else append with count 1. -/
def propPart2 (trees : List Phylo) (nTips : Nat) : List (List Nat) × List Nat :=
  match trees with
  | [] => ([], [])
  | M :: rest =>
      let nbtree := trees.length
      let ans := bipartition2 M.edge nTips
      let no := ans.map (fun _ => 1)
      let no := if no.isEmpty then no else no.set 0 nbtree
      rest.foldl
        (fun (st : List (List Nat) × List Nat) tmpTree =>
          let bp := bipartition2 tmpTree.edge nTips
          (bp.drop 1).foldl
            (fun (st : List (List Nat) × List Nat) p =>
              match (st.1.drop 1).findIdx? (fun q => q == p) with
              | some j' => (st.1, st.2.set (j' + 1) (st.2.getD (j' + 1) 0 + 1))
              | none => (st.1 ++ [p], st.2 ++ [1]))
            st)
        (ans, no)

/-- `propPart(tre)` (dist-topo.js) on a list of trees: reorder each tree to
postorder (the postorder `reorder` of this code base corrupts the edge
rows of any tree with two or more internal nodes — see `reorderTree` — and
the subsequent row reads of `bipartition2` throw), then compute the shared
registry and attach the first tree's tip labels. -/
def propPart (tre : List Phylo) : Except JsError PropPartResult := do
  let trees ← tre.mapM (fun t => reorderTree t .postorder)
  match trees with
  | [] => .error .undefinedEdgeRow  -- JS: trees[0].tipLabel of undefined
  | t0 :: _ =>
      let nTips := t0.tipLabel.length
      let (parts, no) := propPart2 trees nTips
      .ok { partitions := parts, number := no, labels := t0.tipLabel }

/-! ## Unrooting (root.js) -/

/-- One degree bump of `unrootPhylo`'s `dgr` table: nodes outside
`1..totalNodes` are ignored. -/
def degBump (totalNodes : Nat) (d : List Nat) (v : Nat) : List Nat :=
  if 1 ≤ v ∧ v ≤ totalNodes then d.set (v - 1) (d.getD (v - 1) 0 + 1) else d

/-- The `dgr` table of `unrootPhylo`: both endpoints of every edge bump the
degree of their node. -/
def degreeTable (edges : List (Nat × Nat)) (totalNodes : Nat) : List Nat :=
  edges.foldl (fun d e => degBump totalNodes (degBump totalNodes d e.1) e.2)
    (List.replicate totalNodes 0)

/-- `unrootPhylo(phy, n, collapseSinglesFlag, keepRootEdge)` (root.js).
Requires at least three edges and a node of degree at least three, is the
identity on trees that are not rooted, otherwise removes the root: either
materialising `rootEdge` as a `[ROOT]` pseudo-tip (`keepRootEdge`), or
splicing a basal root into its child and then merging the two
root-adjacent edges, renumbering ids above the removed node down by one. -/
def unrootPhylo (phy0 : Phylo) (n0 : Nat) (collapseFlag : Bool := false)
    (keepRootEdge0 : Bool := false) : Except JsError Phylo := do
  let phy ← if collapseFlag then collapseSingles phy0 else pure phy0
  let N := phy.edge.length
  if N < 3 then throw .tooFewEdges
  let totalNodes := n0 + phy.Nnode
  let dgr := degreeTable phy.edge totalNodes
  if dgr.all (fun c => c < 3) then throw .allNodesSingleton
  let keepRootEdge := if phy.rootEdge = none then false else keepRootEdge0
  let phy := if phy.rootEdge ≠ none ∧ ¬keepRootEdge0
    then { phy with rootEdge := none } else phy
  if ¬ isRooted phy n0 then return phy
  -- wbl guards the edge-length updates below; here they are expressed by
  -- mapping over the optional edgeLength field directly
  let ROOT := n0 + 1
  let basal := (dgr.getD (ROOT - 1) 0 == 1) && !keepRootEdge
  let (phy, n, N, ROOT) ←
    if keepRootEdge then
      let edge := phy.edge.map (fun e =>
        (if n0 < e.1 then e.1 + 1 else e.1, if n0 < e.2 then e.2 + 1 else e.2))
      let ROOT := ROOT + 1
      let edge := edge ++ [(ROOT, n0 + 1)]
      let el := phy.edgeLength.map (fun el => el ++ [phy.rootEdge.getD 0])
      let phy := { phy with
        edge := edge, edgeLength := el, rootEdge := none,
        tipLabel := phy.tipLabel ++ ["[ROOT]"] }
      pure (phy, n0 + 1, N + 1, ROOT)
    else if basal then
      match phy.edge.findIdx? (fun row => row.1 == ROOT) with
      | none => throw .basalEdgeNotFound
      | some i =>
          let NEWROOT := (phy.edge.getD i (0, 0)).2
          let ROOT := ROOT + 1
          let edge := phy.edge.map (fun e =>
            (if e.1 = NEWROOT then ROOT else e.1, if e.2 = NEWROOT then ROOT else e.2))
          let n := n0 + 1
          let edge := edge.set i (ROOT, n)
          let (newlab, nodeLabel) :=
            match phy.nodeLabel with
            | some (l0 :: ls) => (l0, some ls)
            | some [] => ("[ROOT]", (some [] : Option (List String)))
            | none => ("[ROOT]", none)
          let phy := { phy with
            edge := edge, tipLabel := phy.tipLabel ++ [newlab],
            nodeLabel := nodeLabel, Nnode := phy.Nnode - 1 }
          pure (phy, n, N, ROOT)
    else pure (phy, n0, N, ROOT)
  let (phy, ophy) ←
    if phy.order = none then do
      let phy ← reorderTree phy .cladewise
      pure (phy, phy.order)
    else pure (phy, phy.order)
  let (EDGEROOT0, EDGEROOT1, NEWROOT) ←
    if ophy ≠ some .cladewise then
      -- for postorder (or still-untagged) input the two root edges are at
      -- the tail of the matrix
      let NEWROOT := (phy.edge.getD (N - 2) (0, 0)).1
      let er : Nat × Nat :=
        if (phy.edge.getD (N - 1) (0, 0)).2 ≠ NEWROOT then (N - 2, N - 1)
        else (N - 1, N - 2)
      pure (er.1, er.2, NEWROOT)
    else
      let cand := (List.range phy.edge.length).filter
        (fun i => (phy.edge.getD i (0, 0)).1 == ROOT)
      match cand with
      | [] => throw .undefinedEdgeRow  -- JS: EDGEROOT[0] undefined, row read throws
      | c0 :: _ =>
          -- EDGEROOT is the whole candidate list, possibly reversed; only
          -- its first two entries are used below
          let er := if (phy.edge.getD c0 (0, 0)).2 ≤ n then cand.reverse else cand
          pure (er.getD 0 c0, er.getD 1 c0, (phy.edge.getD (er.getD 0 c0) (0, 0)).2)
  let idxOther := if EDGEROOT0 < EDGEROOT1 then EDGEROOT1 - 1 else EDGEROOT1
  let newEdge := phy.edge.eraseIdx EDGEROOT0
  let el := phy.edgeLength.map (fun el =>
    (el.set idxOther (el.getD idxOther 0 + el.getD EDGEROOT0 0)).eraseIdx EDGEROOT0)
  let phy := { phy with edge := newEdge, edgeLength := el, Nnode := phy.Nnode - 1 }
  let edge := phy.edge.map (fun e =>
    (if e.1 = NEWROOT then ROOT else e.1, if e.2 = NEWROOT then ROOT else e.2))
  let edge := edge.map (fun e =>
    (if NEWROOT < e.1 then e.1 - 1 else e.1, if NEWROOT < e.2 then e.2 - 1 else e.2))
  let nodeLabel := phy.nodeLabel.map (fun nl =>
    if NEWROOT = n + 2 then nl.drop 1
    else
      let idxToRemoveLabel := NEWROOT - n - 1
      let tmp := nl.getD idxToRemoveLabel ""
      let lbs := nl.drop 1
      let lbs := lbs.eraseIdx (idxToRemoveLabel - 1)
      tmp :: lbs)
  return { phy with edge := edge, nodeLabel := nodeLabel }

/-! ## Rooting (root.js) -/

/-- The `outgroup` argument of `rootPhylo`: a single tip number, a list of
tip numbers, or a list of tip labels (the shape the JS dispatches on with
`Array.isArray` / `typeof outgroup[0]`). -/
inductive RootOutgroup where
  | num (x : Nat)
  | nums (l : List Nat)
  | labels (l : List String)
deriving Repr, DecidableEq

/-- The registry scan of `rootPhylo` for a multi-tip outgroup: walk the
non-trivial partitions looking for the ingroup (then the parent of the
matching clade's edge is the new root) or the outgroup itself (then the
clade's node is); `0` stands for JS's falsy no-match outcome (`newroot`
left `0`, or `e1[-1]` being `undefined`). -/
def scanNewroot (pp : List (List Nat)) (og ingroup : List Nat)
    (e1 e2 : List Nat) (n Nnode : Nat) : Nat :=
  match (List.range' 1 (Nnode - 1)).findSome? (fun i =>
    let part := pp.getD i []
    if part = ingroup then
      some (match e2.findIdx? (fun v => v == i + n) with
            | some idx => e1.getD idx 0
            | none => 0)
    else if part = og then some (i + n)
    else none) with
  | some r => r
  | none => 0

/-- The reversal walk of `rootPhylo`: starting just below the new root's
incoming edge, scan upwards (`i_idx--`) marking each edge on the path to
the old root for inversion, stopping (without marking) at the edge out of
the old root.  Returns the updated marks, the node reached, and the final
`i_idx`.  The fuel is the exact iteration count `i_idx + 1`. -/
def invWalk (e1 e2 : List Nat) (ROOT : Nat) :
    Nat → Int → Option Nat → List Bool → List Bool × Option Nat × Int
  | 0, i_idx, nod, inv => (inv, nod, i_idx)
  | fuel + 1, i_idx, nod, inv =>
      if i_idx < 0 then (inv, nod, i_idx)
      else
        let ii := i_idx.toNat
        if some (e2.getD ii 0) = nod then
          if e1.getD ii 0 = ROOT then (inv, nod, i_idx)
          else invWalk e1 e2 ROOT fuel (i_idx - 1) (some (e1.getD ii 0))
            (inv.set ii true)
        else invWalk e1 e2 ROOT fuel (i_idx - 1) nod inv

/-- Outgroup resolution of `rootPhylo`: the explicit `node` wins (it must
be internal), otherwise the outgroup argument is normalised to a sorted
tip-id list and the new root located (parent of a single outgroup tip's
edge; clade scan for a multi-tip outgroup).  Returns `none` when the
outgroup is the whole tip set (the caller then returns the tree
unchanged); otherwise `(newroot, outgroup ids or null, MRCA_outgroup)`. -/
def rootResolve (phy : Phylo) (outgroup : RootOutgroup) (node : Option Nat)
    (e1 e2 : List Nat) (n : Nat) :
    Except JsError (Option (Nat × Option (List Nat) × Nat)) := do
  match node with
  | some nd =>
      if nd ≤ n then throw .badNode
      pure (some (nd, none, 0))
  | none =>
      let og0 : List Nat ←
        match outgroup with
        | .num x => pure [x]
        | .nums l =>
            if l.any (fun t => n < t) then throw .badTaxa else pure l
        | .labels l =>
            l.mapM (fun s =>
              match jsIndexOf phy.tipLabel s with
              | some i => pure (i + 1)
              | none => throw .outgroupNotInLabels)
      if og0.length = n then return none
      let og0 := og0.mergeSort (fun a b => decide (a ≤ b))
      if 1 < og0.length then
        let pp ← propPart [phy]
        let ingroup := (List.range' 1 n).filter (fun i => !(og0.contains i))
        let nr := scanNewroot pp.partitions og0 ingroup e1 e2 n phy.Nnode
        if nr = 0 then throw .notMonophyletic
        pure (some (nr, some og0, phy.Nnode + n))
      else
        match e2.findIdx? (fun v => v == og0.getD 0 0) with
        | some idx => pure (some (e1.getD idx 0, some og0, 0))
        | none => throw .undefinedEdgeRow  -- JS: e1[-1] is undefined

/-- The `newroot === ROOT` branch of `rootPhylo`: without `resolveRoot` the
tree is returned as is (`false` flag: skip the final renumbering); with it
and a root of out-degree above two, a fresh node absorbs every root edge
except the outgroup-bound one. -/
def rootAtSame (phy : Phylo) (og : Option (List Nat)) (MRCA : Nat)
    (node : Option Nat) (resolveRoot : Bool) (e1 e2 : List Nat)
    (n N oldNnode ROOT : Nat) : Except JsError (Bool × Phylo) := do
  if ¬ resolveRoot then return (false, phy)
  let og2 := match og with
    | some l => if 1 < l.length then [MRCA] else l
    | none => []
  if node ≠ none then throw .ambiguousRoot
  let k := (List.range N).filter (fun i => e1.getD i 0 == ROOT)
  if 2 < k.length then
    let i_index := e2.findIdx? (fun v => v == og2.getD 0 0)
    let j := k.filter (fun idx => some idx ≠ i_index)
    let newnod := oldNnode + n + 1
    let edge := j.foldl
      (fun ed idx => ed.set idx (newnod, (ed.getD idx (0, 0)).2)) phy.edge
    let edge := (ROOT, newnod) :: edge
    let el := phy.edgeLength.map (fun el => (0 : ℚ) :: el)
    pure (true, { phy with edge := edge, edgeLength := el, Nnode := phy.Nnode + 1 })
  else pure (true, phy)

/-- The edge-reversal core of `rootPhylo` (`newroot !== ROOT`): mark the
path from the new root up to the old root, fuse a bifurcating old root
into its other child, optionally move labels, swap the marked edges and
splice out the fused edge. -/
def rootMove (phy : Phylo) (newroot : Nat) (edgelabel fuseRoot : Bool)
    (e1 e2 : List Nat) (n N oldNnode ROOT : Nat) :
    Except JsError (Phylo × Int × List Bool) := do
  let phy := { phy with rootEdge := none }
  let w := (List.range N).filter (fun i => e2.getD i 0 == newroot)
  let anc := w.map (fun idx => e1.getD idx 0)
  let i_idx : Int := match w with
    | w0 :: _ => (w0 : Int)
    | [] => -1
  let nod : Option Nat := anc.head?
  let (inv, _nod, i_idx) :=
    if nod ≠ some ROOT then
      let inv := w.foldl (fun inv idx => inv.set idx true)
        (List.replicate N false)
      let start : Int := (w.getD 0 0 : Int) - 1
      invWalk e1 e2 ROOT (start + 1).toNat start nod inv
    else (List.replicate N false, nod, i_idx)
  let inv :=
    if ¬ fuseRoot ∧ 0 ≤ i_idx then inv.set i_idx.toNat true else inv
  let phy ←
    if fuseRoot then do
      let k := (List.range N).filter (fun i => e1.getD i 0 == ROOT)
      let k_idx :=
        if 2 ≤ k.length ∧ w ≠ [] ∧ w.getD 0 0 < k.getD 1 0 then k.getD 1 0
        else k.getD 0 0
      if i_idx < 0 then throw .undefinedEdgeRow  -- JS: phy.edge[-1][1]
      let src := phy.edge.getD i_idx.toNat (0, 0)
      let edge := phy.edge.set k_idx (src.2, (phy.edge.getD k_idx (0, 0)).2)
      let el := phy.edgeLength.map (fun el =>
        el.set k_idx (el.getD k_idx 0 + el.getD i_idx.toNat 0))
      pure { phy with edge := edge, edgeLength := el }
    else pure phy
  let phy := if fuseRoot then { phy with Nnode := oldNnode - 1 } else phy
  let phy :=
    if edgelabel then
      match phy.nodeLabel with
      | some nl =>
          let nl := (List.range N).foldl
            (fun nl i =>
              if inv.getD i false then
                -- nodeLabel[idx2] is undefined for a tip child; the JS
                -- guard skips those
                if n < e2.getD i 0 ∧ e2.getD i 0 - n - 1 < nl.length then
                  nl.set (e1.getD i 0 - n - 1) (nl.getD (e2.getD i 0 - n - 1) "")
                else nl
              else nl) nl
          let nl :=
            if newroot - n - 1 < nl.length then nl.set (newroot - n - 1) ""
            else nl
          { phy with nodeLabel := some nl }
      | none => phy
    else phy
  let edge := phy.edge.enum.map (fun (p : Nat × (Nat × Nat)) =>
    if inv.getD p.1 false then (p.2.2, p.2.1) else p.2)
  let phy := { phy with edge := edge }
  let phy ←
    if fuseRoot ∧ 0 ≤ i_idx then
      pure { phy with
        edge := phy.edge.eraseIdx i_idx.toNat,
        edgeLength := phy.edgeLength.map (fun el => el.eraseIdx i_idx.toNat) }
    else pure phy
  pure (phy, i_idx, inv)

/-- The `resolveRoot` insertion of `rootPhylo` after a root move: a fresh
node `newnod` joined to `newroot` by a zero-length edge takes over all of
`newroot`'s outgoing edges except the outgroup-bound side. -/
def rootResolveInsert (phy : Phylo) (og : Option (List Nat))
    (newroot n N oldNnode : Nat) : Except JsError Phylo := do
  let newnod := oldNnode + n + 1
  let ogl ← match og with
    | some l => pure l
    | none => throw .undefinedEdgeRow  -- JS: outgroup.length of null
  -- the JS loops below run `i < N` with the stale N; when an edge was
  -- spliced out by the root fuse, `phy.edge[N-1]` is undefined and the
  -- row read throws
  if phy.edge.length < N then throw .undefinedEdgeRow
  if ogl.length = 1 then
    let wh := (List.range N).filter
      (fun i => (phy.edge.getD i (0, 0)).2 == ogl.getD 0 0)
    let k := (List.range N).filter
      (fun i => (phy.edge.getD i (0, 0)).1 == newroot)
    let edge := k.foldl
      (fun ed idx =>
        if wh.contains idx then ed
        else ed.set idx (newnod, (ed.getD idx (0, 0)).2)) phy.edge
    let o := ((List.range N).filter (fun i => !(wh.contains i))) ++ wh
    let edge := (newroot, newnod) :: o.map (fun i => edge.getD i (0, 0))
    let el := phy.edgeLength.map (fun el =>
      (0 : ℚ) :: o.map (fun i => el.getD i 0))
    pure { phy with edge := edge, edgeLength := el, Nnode := phy.Nnode + 1 }
  else
    let wh := (List.range N).filter
      (fun i => (phy.edge.getD i (0, 0)).1 == newroot)
    let edge := (wh.drop 1).foldl
      (fun ed idx => ed.set idx (newnod, (ed.getD idx (0, 0)).2)) phy.edge
    -- `wh[1]` is defined whenever the new root has two or more outgoing
    -- edges (guaranteed by the monophyly scan on valid input);
    -- `edge.length` stands in for the undefined index
    let cut := wh.getD 1 edge.length
    let edge := edge.take cut ++ [(newroot, newnod)] ++ edge.drop cut
    let el := phy.edgeLength.map (fun el =>
      el.take cut ++ [(0 : ℚ)] ++ el.drop cut)
    pure { phy with edge := edge, edgeLength := el, Nnode := phy.Nnode + 1 }

/-- JS numeric-array write `a[i] = v`: an out-of-range write extends the
array (holes read back as 0 here where JS yields `undefined`; the
renumbering below never reads a hole on its reachable inputs). -/
def jsSetExtend (l : List Nat) (i v : Nat) : List Nat :=
  if i < l.length then l.set i v
  else l ++ List.replicate (i - l.length) 0 ++ [v]

/-- The final renumbering of `rootPhylo`: the new root becomes `n + 1`,
the internal nodes of the child column get `n + 2 ..` in ascending
old-number order, and the node labels are permuted accordingly (under
`resolveRoot` holes are filled and entry 0 becomes "Root"). -/
def rootRenumber (phy : Phylo) (newroot n : Nat)
    (fuseRoot resolveRoot : Bool) : Phylo :=
  let totalNodes := n + phy.Nnode
  let newNb := jsSetExtend (List.replicate totalNodes 0) (newroot - 1) (n + 1)
  let sndcolIndices := (List.range phy.edge.length).filter
    (fun i => n < (phy.edge.getD i (0, 0)).2)
  let nodesToRenumber :=
    (jsUniq (sndcolIndices.map (fun i => (phy.edge.getD i (0, 0)).2))).mergeSort
      (fun a b => decide (a ≤ b))
  let newNb := (nodesToRenumber.enum).foldl
    (fun nb (p : Nat × Nat) => jsSetExtend nb (p.2 - 1) (n + 2 + p.1)) newNb
  let edge := sndcolIndices.foldl
    (fun ed i =>
      ed.set i ((ed.getD i (0, 0)).1, newNb.getD ((ed.getD i (0, 0)).2 - 1) 0))
    phy.edge
  let edge := edge.map (fun e => (newNb.getD (e.1 - 1) 0, e.2))
  let phy := { phy with edge := edge }
  match phy.nodeLabel with
  | some nl =>
      let newNbSub := newNb.drop n
      let (newNbSub, nl) :=
        if ¬ newNbSub.isEmpty ∧ fuseRoot
        then (newNbSub.drop 1, nl.drop 1) else (newNbSub, nl)
      let entries := (newNbSub.enum.map (fun p => (p.2, p.1))).mergeSort
        (fun a b => decide (a.1 ≤ b.1))
      let lbs := entries.map (fun p => nl.get? p.2)
      let lbs := if resolveRoot
        then lbs.map (fun v => if v = none then lbs.getD 0 none else v)
        else lbs
      let lbs := lbs.map (fun v => v.getD "")
      let lbs := if resolveRoot then lbs.set 0 "Root" else lbs
      { phy with nodeLabel := some lbs }
  | none => phy

/-- `rootPhylo(phy, outgroup, node, resolveRoot, edgelabel)` (root.js):
reroot at an explicit internal node or at the outgroup's clade, reversing
the edges on the path from the new root to the old one, splicing out a
bifurcating old root, optionally inserting a resolving node, and finally
renumbering root-first and reapplying cladewise order.  The JS `undefined`
hazards on malformed input are surfaced as errors at the first row read
and commented inline in the helpers. -/
def rootPhylo (phy0 : Phylo) (outgroup : RootOutgroup)
    (node : Option Nat := none) (resolveRoot : Bool := false)
    (edgelabel : Bool := false) : Except JsError Phylo := do
  let phy ← reorderTree phy0 .cladewise
  let n := phy.tipLabel.length
  let ROOT := n + 1
  -- `unrootPhylo(phy)` is called without a tip count, so `totalNodes` is
  -- NaN inside and `new Array(NaN)` throws RangeError (after the <3-edges
  -- check).
  let multi : Bool := match outgroup with
    | .nums l => decide (1 < l.length)
    | .labels l => decide (1 < l.length)
    | .num _ => false
  let phy ← if node = none ∧ resolveRoot ∧ multi = true then
      if phy.edge.length < 3 then throw JsError.tooFewEdges
      else throw JsError.rangeInvalidArrayLength
    else pure phy
  let e1 := phy.edge.map (·.1)
  let e2 := phy.edge.map (·.2)
  let resolved ← rootResolve phy outgroup node e1 e2 n
  match resolved with
  | none => return phy
  | some (newroot, og, MRCA) =>
      let N := phy.edge.length
      let oldNnode := phy.Nnode
      let Nclade := parentCounts phy.edge ROOT
      let fuseRoot := Nclade = 2
      let phy ←
        if newroot = ROOT then do
          let (cont, phy') ← rootAtSame phy og MRCA node resolveRoot e1 e2
            n N oldNnode ROOT
          if cont then pure phy' else return phy'
        else do
          let (phy', _i_idx, _inv) ← rootMove phy newroot edgelabel fuseRoot
            e1 e2 n N oldNnode ROOT
          if resolveRoot then
            rootResolveInsert phy' og newroot n N oldNnode
          else pure phy'
      let phy := rootRenumber phy newroot n fuseRoot resolveRoot
      let phy ← reorderTree { phy with order := none } .cladewise
      return phy

/-! ## Drop-tip engine (drop-tip.js) -/

/-- The `tip` argument of `dropTip`: a list of tip labels or a list of tip
numbers (the JS dispatches on `typeof tip[0]`; a single string argument
first becomes a one-element label list). -/
inductive TipArg where
  | labels (l : List String)
  | ids (l : List Nat)
deriving Repr, DecidableEq

/-- Label resolution of `dropTip`: each label is looked up in `tipLabel`
(1-indexed result); labels that do not occur map to `null` and are
filtered out. -/
def resolveTipLabels (phy : Phylo) (ls : List String) : List Nat :=
  ls.filterMap (fun t => (jsIndexOf phy.tipLabel t).map (fun idx => idx + 1))

/-- Warning emitted for out-of-range tip numbers. -/
def oorWarning : String :=
  "some tip numbers were larger than the number of tips: they were ignored"

/-- Warning emitted when dropping every tip. -/
def dropAllWarning : String := "drop all tips of the tree: returning null"

/-- Warning emitted when the surviving tip's edge cannot be found. -/
def remainingTipEdgeWarning : String := "Edge for the remaining tip not found"

/-- Default of dropTip's `rooted` parameter: the JS evaluates
`isRooted(phy)` without a tip count, so the root out-degree is looked up
at key `NaN`, found `undefined`, and the test `0 <= 2` makes the default
`true` for every tree. -/
def isRootedNoTipCount (_phy : Phylo) : Bool := true

/-- `Math.floor` for the rank values assigned into the edge matrix.  The JS
stores the (float) ranks and floors the whole matrix afterwards
(`row.map(x => (x ? Math.floor(x) : 0))`); with distinct terminal nodes
the "average" ranks are integers, and the floor is applied here at the
assignment to keep the matrix over `Nat`. -/
def ratFloorNat (q : ℚ) : Nat := q.floor.toNat

/-- JS number-to-string conversion for the `[k_tips]` labels (the depth
values used there are integers). -/
def ratToString (q : ℚ) : String :=
  if q.den = 1 then toString q.num else toString q.num ++ "/" ++ toString q.den

/-- The `trimInternal` fixpoint loop of `dropTip`: repeatedly un-keep
internal edges whose child is no longer a kept parent, until none is
selected.  Every pass that recurses un-keeps at least one edge, so fuel
`Nedge + 1` performs the loop exactly. -/
def trimLoop (edge1 edge2 : List Nat) (ints : List Bool) :
    Nat → List Bool → List Bool
  | 0, keep => keep
  | fuel + 1, keep =>
      let allowed := (edge1.zip keep).filterMap
        (fun p => if p.2 then some p.1 else none)
      let sel := (List.range keep.length).filter (fun i =>
        keep.getD i false && ints.getD i false &&
          !(allowed.contains (edge2.getD i 0)))
      if sel.isEmpty then keep
      else trimLoop edge1 edge2 ints fuel (sel.foldl (fun kp i => kp.set i false) keep)

/-- The root-edge walk of `dropTip` (`rootEdge > 0` and the root's kept
degree dropped to 1): collect the kept root-adjacent chain indices into
`j` (prepending each layer) and move `NEWROOT` down until a branching node
is reached.  The walk terminates on tree-shaped input within `Nedge`
steps; a cyclic edge list would loop forever in JS, hence the fuel. -/
def rootEdgeWalk (edge1 edge2 : List Nat) (keep : List Bool)
    (degree : List Nat) :
    Nat → Nat → List Nat → Except JsError (List Nat × Nat)
  | 0, _, _ => throw .outOfFuel
  | fuel + 1, NEWROOT, j =>
      let indices := (List.range keep.length).filter (fun i =>
        keep.getD i false && edge1.getD i 0 == NEWROOT)
      if indices.isEmpty then pure (j, NEWROOT)
      else
        let j := indices ++ j
        let NEWROOT := edge2.getD (indices.getD 0 0) 0
        if 1 < degree.getD NEWROOT 0 then pure (j, NEWROOT)
        else rootEdgeWalk edge1 edge2 keep degree fuel NEWROOT j

/-- Stage one of `dropTip`'s general path: clear `rootEdge` and root at a
surviving tip when an unrooted tree is pruned with `subtree`, reorder
cladewise, and compute the per-node depths needed by `subtree` (which also
forces `trimInternal`). -/
def dropTipPrepare (phy : Phylo) (tip : List Nat)
    (trimInternal subtree : Bool) (rootEdgeBudget : Nat) (rooted : Bool)
    (Ntip : Nat) :
    Except JsError (Phylo × Nat × Bool × Option (List ℚ) × Nat × Nat) := do
  let (phy, rootEdgeBudget) ←
    if ¬ rooted then
      let phy := { phy with rootEdge := none }
      if subtree then do
        let allTips := List.range' 1 Ntip
        let remaining := allTips.filter (fun x => !(tip.contains x))
        match remaining with
        | [] => throw .undefinedEdgeRow  -- JS: rootPhylo(phy, undefined)
        | r0 :: _ => do
            let phy ← rootPhylo phy (.num r0)
            pure (phy, 0)
      else pure (phy, rootEdgeBudget)
    else pure (phy, rootEdgeBudget)
  let phy ← reorderTree phy .cladewise
  let Nnode := phy.Nnode
  let Nedge := phy.edge.length
  let (trimInternal, Nvec) ←
    if subtree then do
      let tr ← reorderTree phy .postorder
      let Nvec := nodeDepth Ntip (tr.edge.map (fun r => r.1))
        (tr.edge.map (fun r => r.2)) (List.replicate (Ntip + Nnode) 0) 1
      pure (true, some Nvec)
    else pure (trimInternal, (none : Option (List ℚ)))
  pure (phy, rootEdgeBudget, trimInternal, Nvec, Nnode, Nedge)

/-- Stage two of `dropTip`'s general path: un-keep the dropped tips'
terminal edges, run the `trimInternal` cascade, restore `subtree` boundary
edges, and absorb a collapsed root-adjacent chain into `rootEdge` when a
budget is given.  Returns the keep mask, the (possibly moved) `NEWROOT`
and the tree (whose `rootEdge` the budget step may set). -/
def dropTipMarkKeep (phy : Phylo) (tip : List Nat)
    (trimInternal subtree : Bool) (rootEdgeBudget : Nat)
    (Ntip Nedge : Nat) (wbl : Bool) :
    Except JsError (List Bool × Nat × Phylo) := do
  let NEWROOT := Ntip + 1
  let ROOT := Ntip + 1
  let edge1 := phy.edge.map (fun r => r.1)
  let edge2 := phy.edge.map (fun r => r.2)
  let keep := tip.foldl
    (fun keep t =>
      match edge2.findIdx? (fun x => x == t) with
      | some idx => keep.set idx false
      | none => keep)
    (List.replicate Nedge true)
  if trimInternal then do
    let ints := edge2.map (fun x => decide (Ntip < x))
    let keep := trimLoop edge1 edge2 ints (Nedge + 1) keep
    let keep :=
      if subtree then
        let keptPar := (edge1.zip keep).filterMap
          (fun p => if p.2 then some p.1 else none)
        let notKeptPar := (edge1.zip keep).filterMap
          (fun p => if p.2 then none else some p.1)
        (List.range Nedge).foldl
          (fun kp i =>
            if keptPar.contains (edge1.getD i 0) ∧
                notKeptPar.contains (edge1.getD i 0)
            then kp.set i true else kp) keep
      else keep
    if rootEdgeBudget ≠ 0 ∧ wbl then do
      let keptEdge1 := (edge1.zip keep).filterMap
        (fun p => if p.2 then some p.1 else none)
      let degree ← tabulateE keptEdge1
      if degree.getD ROOT 0 = 1 then do
        let (j, NEWROOT) ← rootEdgeWalk edge1 edge2 keep degree
          (Nedge + 2) NEWROOT []
        let keep := j.foldl (fun kp idx => kp.set idx false) keep
        let j := j.take rootEdgeBudget
        let NewRootEdge := j.foldl
          (fun s idx => s + (match phy.edgeLength with
            | some el => el.getD idx 0
            | none => 0)) (0 : ℚ)
        let NewRootEdge :=
          if j.length < rootEdgeBudget ∧ phy.rootEdge ≠ none
          then NewRootEdge + phy.rootEdge.getD 0 else NewRootEdge
        pure (keep, NEWROOT, { phy with rootEdge := some NewRootEdge })
      else pure (keep, NEWROOT, phy)
    else pure (keep, NEWROOT, phy)
  else pure (keep, NEWROOT, phy)

/-- Stage three of `dropTip`'s general path: drop the unkept edges, rank
the new terminal nodes into tip numbers, adjust the label arrays
(`subtree` relabelling, removal of dropped labels, synthetic labels for
node-turned-tips). -/
def dropTipRelabel (phy : Phylo) (tip : List Nat) (keep : List Bool)
    (trimInternal subtree : Bool) (Nvec : Option (List ℚ)) (Ntip : Nat) :
    Phylo × Nat :=
  let newEdge := (phy.edge.zip keep).filterMap
    (fun p => if p.2 then some p.1 else none)
  let newEdgeLength := phy.edgeLength.map (fun el =>
    (el.zip keep).filterMap (fun p => if p.2 then some p.1 else none))
  let phy := { phy with edge := newEdge, edgeLength := newEdgeLength }
  let parentSet := phy.edge.map (fun r => r.1)
  let TERMS := phy.edge.map (fun row => !(parentSet.contains row.2))
  let oldNoOfNewTips := (phy.edge.zip TERMS).filterMap
    (fun p => if p.2 then some p.1.2 else none)
  let (phy, tip) :=
    if subtree then
      let tl := tip.foldl
        (fun tl t =>
          if oldNoOfNewTips.contains t then tl.set (t - 1) "[1_tip]" else tl)
        phy.tipLabel
      ({ phy with tipLabel := tl },
       tip.filter (fun t => !(oldNoOfNewTips.contains t)))
    else (phy, tip)
  let newNtip := oldNoOfNewTips.length
  let termEdges := (phy.edge.zip TERMS).filterMap
    (fun p => if p.2 then some p.1.2 else none)
  let termRanks := rank (termEdges.map (fun x => (x : ℚ)))
  let edgeAssigned := ((phy.edge.zip TERMS).foldl
    (fun (st : List (Nat × Nat) × Nat) p =>
      if p.2 then
        (st.1 ++ [(p.1.1, ratFloorNat (termRanks.getD st.2 0))], st.2 + 1)
      else (st.1 ++ [p.1], st.2))
    ([], 0)).1
  let phy := { phy with edge := edgeAssigned }
  let phy :=
    if tip.length ≠ 0 then
      let sorted := (tip.mergeSort (fun a b => decide (a ≤ b))).reverse
      { phy with tipLabel := sorted.foldl (fun tl t => tl.eraseIdx (t - 1)) phy.tipLabel }
    else phy
  let phy :=
    if subtree ∨ ¬ trimInternal then
      let node2tip := oldNoOfNewTips.filter (fun x => Ntip < x)
      let newTipLabel :=
        if node2tip.length = 0 then []
        else if subtree && phy.nodeLabel.isNone then
          node2tip.map (fun x =>
            "[" ++ (match Nvec with
                    | some nv => ratToString (nv.getD (x - 1) 0)
                    | none => "?") ++ "_tips]")
        else match phy.nodeLabel with
          | none => List.replicate node2tip.length "NA"
          | some nl => node2tip.map (fun x => nl.getD (x - Ntip - 1) "")
      { phy with tipLabel := phy.tipLabel ++ newTipLabel }
    else phy
  ({ phy with Nnode := phy.edge.length - newNtip + 1 }, newNtip)

/-- Stage four of `dropTip`'s general path: renumber the surviving
internal nodes root-first (`NEWROOT` becomes `newNtip + 1`, the internal
child nodes get `newNtip + 2 ..` in ascending old-number order) and keep
the node labels of the surviving nodes. -/
def dropTipRenumber (phy : Phylo) (NEWROOT Ntip Nnode newNtip : Nat) : Phylo :=
  let newNb := (List.replicate (Ntip + Nnode) 0).set (NEWROOT - 1) (newNtip + 1)
  let sndcol := (List.range phy.edge.length).filter
    (fun i => newNtip < (phy.edge.getD i (0, 0)).2)
  let nodesToRenumber :=
    (jsUniq (sndcol.map (fun i => (phy.edge.getD i (0, 0)).2))).mergeSort
      (fun a b => decide (a ≤ b))
  let newNb := nodesToRenumber.enum.foldl
    (fun nb (p : Nat × Nat) => nb.set (p.2 - 1) (newNtip + 2 + p.1)) newNb
  let edge := sndcol.foldl
    (fun ed i =>
      ed.set i ((ed.getD i (0, 0)).1, newNb.getD ((ed.getD i (0, 0)).2 - 1) 0))
    phy.edge
  let edge := edge.map (fun e => (newNb.getD (e.1 - 1) 0, e.2))
  -- the JS `row.map(x => (x ? Math.floor(x) : 0))` sweep is the identity
  -- on the naturals used here (ranks were floored at assignment and
  -- out-of-range `newNb` reads already defaulted to 0)
  let phy := { phy with edge := edge }
  match phy.nodeLabel with
  | some nl =>
      let indices := (List.range newNb.length).filterMap (fun i =>
        if 0 < newNb.getD i 0 ∧ Ntip ≤ i then some (i - Ntip) else none)
      { phy with nodeLabel := some (indices.map (fun i => nl.getD i "")) }
  | none => phy

/-- The general path of `dropTip` (after tip resolution and the empty /
drop-all / all-but-one early returns), as the sequence of the four stages
above, finishing with `collapseSingles` when requested. -/
def dropTipGeneral (phy : Phylo) (tip : List Nat)
    (trimInternal subtree : Bool) (rootEdgeBudget : Nat)
    (rooted collapseFlag : Bool) (Ntip : Nat) (wbl : Bool) :
    Except JsError Phylo := do
  let (phy, rootEdgeBudget, trimInternal, Nvec, Nnode, Nedge) ←
    dropTipPrepare phy tip trimInternal subtree rootEdgeBudget rooted Ntip
  let (keep, NEWROOT, phy) ← dropTipMarkKeep phy tip trimInternal subtree
    rootEdgeBudget Ntip Nedge wbl
  let (phy, newNtip) := dropTipRelabel phy tip keep trimInternal subtree
    Nvec Ntip
  let phy := dropTipRenumber phy NEWROOT Ntip Nnode newNtip
  if collapseFlag then collapseSingles phy else pure phy

/-- `dropTip` past tip resolution, on the resolved tip-number list: empty
list → tree unchanged; all tips (with `Nnode < 3` or `trimInternal`) →
warning and the null sentinel; all-but-one with `trimInternal` → the
canonical 2-node, 1-edge tree whose single length is the surviving
terminal edge's own length and whose node label is the spent parent's;
otherwise the general path. -/
def dropTipResolved (phy : Phylo) (tip : List Nat)
    (trimInternal subtree : Bool) (rootEdgeBudget : Nat)
    (rooted collapseFlag : Bool) :
    List String × Except JsError (Option Phylo) :=
  let Ntip := phy.tipLabel.length
  if tip.length = 0 then ([], .ok (some phy))
  else if tip.length = Ntip ∧ (phy.Nnode < 3 ∨ trimInternal) then
    ([dropAllWarning], .ok none)
  else
    let wbl := phy.edgeLength.isSome
    if tip.length = Ntip - 1 ∧ trimInternal then
      let allTips := List.range' 1 Ntip
      let remaining := allTips.filter (fun x => !(tip.contains x))
      match remaining with
      | [] => ([remainingTipEdgeWarning], .ok (some phy))
      | r0 :: _ =>
          match phy.edge.findIdx? (fun row => row.2 == r0) with
          | none => ([remainingTipEdgeWarning], .ok (some phy))
          | some iEdge =>
              let row := phy.edge.getD iEdge (0, 0)
              let res : Phylo :=
                { edge := [(2, 1)],
                  tipLabel := [phy.tipLabel.getD (row.2 - 1) ""],
                  Nnode := 1,
                  edgeLength := phy.edgeLength.map (fun el => [el.getD iEdge 0]),
                  nodeLabel := phy.nodeLabel.map
                    (fun nl => [nl.getD (row.1 - Ntip - 1) ""]) }
              ([], .ok (some res))
    else
      ([], (dropTipGeneral phy tip trimInternal subtree rootEdgeBudget
              rooted collapseFlag Ntip wbl).map some)

/-- `dropTip(phy, tip, trimInternal, subtree, rootEdge, rooted,
collapseSinglesFlag)` (drop-tip.js).  Tip labels resolve through
`tipLabel`, unresolved labels being filtered out; tip numbers above the
tip count are filtered out with a console warning; the resolved list is
then handed to the pruning core.  The first component collects the
console warnings of the call, the second is the result (`none` is the JS
`null` sentinel for "all tips dropped"). -/
def dropTip (phy : Phylo) (tip : TipArg) (trimInternal : Bool := true)
    (subtree : Bool := false) (rootEdgeBudget : Nat := 0)
    (rooted : Option Bool := none) (collapseFlag : Bool := true) :
    List String × Except JsError (Option Phylo) :=
  let Ntip := phy.tipLabel.length
  let rooted := rooted.getD (isRootedNoTipCount phy)
  let tipIds : List Nat := match tip with
    | .labels ls => resolveTipLabels phy ls
    | .ids l => l
  let outOfRange := tipIds.filter (fun t => Ntip < t)
  let (warn0, tipIds) :=
    if outOfRange.length ≠ 0 then
      ([oorWarning], tipIds.filter (fun t => t ≤ Ntip))
    else ([], tipIds)
  let (warns, res) := dropTipResolved phy tipIds trimInternal subtree
    rootEdgeBudget rooted collapseFlag
  (warn0 ++ warns, res)

/-! ## The data-model invariants and example trees -/

/-- The checkable data-model invariants of a phylo object: at least one
internal node, `edges == n + Nnode - 1`, every edge runs from an internal
node to a node in range, the root `n + 1` never appears as a child, every
other node appears as a child exactly once, and the optional length/label
arrays are parallel.  (Under these local conditions the edge set of a
connected input is exactly a rooted tree; the operations under study are
settled either on concrete trees or through these conditions.) -/
def ValidPhylo (p : Phylo) : Prop :=
  1 ≤ p.Nnode ∧
  p.edge.length + 1 = p.tipLabel.length + p.Nnode ∧
  (∀ e ∈ p.edge,
     p.tipLabel.length + 1 ≤ e.1 ∧ e.1 ≤ p.tipLabel.length + p.Nnode ∧
     1 ≤ e.2 ∧ e.2 ≤ p.tipLabel.length + p.Nnode ∧
     e.2 ≠ p.tipLabel.length + 1) ∧
  (∀ v ∈ List.range' 1 (p.tipLabel.length + p.Nnode),
     v ≠ p.tipLabel.length + 1 → p.edge.countP (fun e => e.2 == v) = 1) ∧
  ((p.edgeLength.map List.length).getD p.edge.length = p.edge.length) ∧
  ((p.nodeLabel.map List.length).getD p.Nnode = p.Nnode)

instance (p : Phylo) : Decidable (ValidPhylo p) := by
  unfold ValidPhylo; infer_instance

/-- The tree `(A,(B,C));` with branch lengths 1..4: tips A=1, B=2, C=3,
root 4, inner node 5. -/
def exTree3 : Phylo :=
  { edge := [(4, 1), (4, 5), (5, 2), (5, 3)],
    edgeLength := some [1, 2, 3, 4],
    tipLabel := ["A", "B", "C"],
    nodeLabel := some ["R", "N"],
    Nnode := 2 }

/-- The tree `((A,B),C);` on the same labels. -/
def exTree3b : Phylo :=
  { edge := [(4, 5), (5, 1), (5, 2), (4, 3)],
    edgeLength := some [1, 2, 3, 4],
    tipLabel := ["A", "B", "C"],
    nodeLabel := some ["R", "N"],
    Nnode := 2 }

/-- The single-tip tree: one edge from the root 2 down to the tip 1. -/
def oneTipTree : Phylo :=
  { edge := [(2, 1)],
    edgeLength := some [5],
    tipLabel := ["A"],
    Nnode := 1 }

/-- The star tree on three tips: root 4 with children 1, 2, 3 (root
out-degree 3, hence not rooted). -/
def starTree3 : Phylo :=
  { edge := [(4, 1), (4, 2), (4, 3)],
    edgeLength := some [1, 2, 3],
    tipLabel := ["A", "B", "C"],
    Nnode := 1 }

/-- A two-edge tree (root 3 with tips 1 and 2). -/
def twoEdgeTree : Phylo :=
  { edge := [(3, 1), (3, 2)],
    edgeLength := some [1, 2],
    tipLabel := ["A", "B"],
    Nnode := 1 }

/-- A pure chain 3 → 4 → 5 → 1 (three edges, every node of degree at most
two; the second tip 2 is isolated, which the degree check does not mind). -/
def chainTree : Phylo :=
  { edge := [(3, 4), (4, 5), (5, 1)],
    edgeLength := some [1, 2, 3],
    tipLabel := ["A", "B"],
    Nnode := 3 }

/-- Decidable equality for `Except` results, used to evaluate the engines
at concrete inputs. -/
instance {ε α : Type} [DecidableEq ε] [DecidableEq α] :
    DecidableEq (Except ε α) := fun a b =>
  match a, b with
  | .error e, .error f =>
      decidable_of_iff (e = f)
        ⟨fun h => by rw [h], fun h => by injection h⟩
  | .ok x, .ok y =>
      decidable_of_iff (x = y)
        ⟨fun h => by rw [h], fun h => by injection h⟩
  | .error _, .ok _ => isFalse (fun h => by injection h)
  | .ok _, .error _ => isFalse (fun h => by injection h)

/-! ## Helper lemmas -/

theorem le_foldl_max (l : List Nat) (b : Nat) : b ≤ l.foldl Nat.max b := by
  induction l generalizing b with
  | nil => exact Nat.le_refl b
  | cons a t ih =>
      exact Nat.le_trans (Nat.le_max_left b a) (ih (Nat.max b a))

theorem mem_le_foldl_max (l : List Nat) (b : Nat) :
    ∀ x ∈ l, x ≤ l.foldl Nat.max b := by
  induction l generalizing b with
  | nil => intro x hx; cases hx
  | cons a t ih =>
      intro x hx
      rcases List.mem_cons.mp hx with h | h
      · subst h
        exact Nat.le_trans (Nat.le_max_right b x) (le_foldl_max t (Nat.max b x))
      · exact ih (Nat.max b a) x h

theorem mem_le_jsMax (l : List Nat) : ∀ x ∈ l, x ≤ jsMax l :=
  mem_le_foldl_max l 0

theorem tabStep_length (c : List Nat) (v : Nat) :
    (tabStep c v).length = c.length := by
  simp [tabStep]

theorem tabStep_getD (c : List Nat) (v i : Nat) (hv : v < c.length) :
    (tabStep c v).getD i 0 = c.getD i 0 + (if v == i then 1 else 0) := by
  by_cases h : v = i
  · subst h
    simp [tabStep, List.getD_eq_getElem?_getD, List.getElem?_set_self hv,
      List.getElem?_eq_getElem hv]
  · simp [tabStep, List.getD_eq_getElem?_getD, List.getElem?_set_ne h, h]

theorem tabFold_length (l acc : List Nat) :
    (l.foldl tabStep acc).length = acc.length := by
  induction l generalizing acc with
  | nil => rfl
  | cons a t ih => simpa [tabStep_length] using ih (tabStep acc a)

theorem tabFold_getD (l : List Nat) (acc : List Nat)
    (h : ∀ x ∈ l, x < acc.length) (i : Nat) :
    (l.foldl tabStep acc).getD i 0 = acc.getD i 0 + l.count i := by
  induction l generalizing acc with
  | nil => simp
  | cons a t ih =>
      have ha : a < acc.length := h a (List.mem_cons_self a t)
      have ht : ∀ x ∈ t, x < (tabStep acc a).length := by
        intro x hx
        rw [tabStep_length]
        exact h x (List.mem_cons_of_mem a hx)
      calc ((a :: t).foldl tabStep acc).getD i 0
          = (t.foldl tabStep (tabStep acc a)).getD i 0 := rfl
        _ = (tabStep acc a).getD i 0 + t.count i := ih (tabStep acc a) ht
        _ = acc.getD i 0 + (if a == i then 1 else 0) + t.count i := by
              rw [tabStep_getD acc a i ha]
        _ = acc.getD i 0 + (a :: t).count i := by
              rw [List.count_cons]
              omega

/-! ## C10: tabulate -/

/-- C10.  `tabulate` requires a non-empty input: on a non-empty list of
positive integers it returns a counts array of length `max + 1` whose
entry `i` is the number of occurrences of `i` (0 for unseen ids); on the
empty list it fails (`Math.max()` of nothing makes the array length
invalid) instead of returning an empty table. -/
theorem tabulate_counts_and_empty_failure :
    (∀ l : List Nat, l ≠ [] → (∀ x ∈ l, 0 < x) →
      ∃ t, tabulate l = some t ∧ t.length = jsMax l + 1 ∧
        ∀ i < t.length, t.getD i 0 = l.count i) ∧
    tabulate ([] : List Nat) = none := by
  constructor
  · intro l hne _hpos
    have htab : tabulate l = some (l.foldl tabStep (List.replicate (jsMax l + 1) 0)) := by
      cases l with
      | nil => cases hne rfl
      | cons a t => rfl
    refine ⟨_, htab, ?_, ?_⟩
    · rw [tabFold_length, List.length_replicate]
    · intro i _hi
      have h : ∀ x ∈ l, x < (List.replicate (jsMax l + 1) 0).length := by
        intro x hx
        rw [List.length_replicate]
        exact Nat.lt_succ_of_le (mem_le_jsMax l x hx)
      rw [tabFold_getD l _ h i]
      simp [List.getD_eq_getElem?_getD, List.getElem?_replicate]
      split <;> rfl
  · rfl

/-- Witness for C10 at the concrete list `[1, 2, 2]`. -/
theorem tabulate_counts_and_empty_failure_witness :
    ∃ t, tabulate [1, 2, 2] = some t ∧ t.length = jsMax [1, 2, 2] + 1 ∧
      ∀ i < t.length, t.getD i 0 = [1, 2, 2].count i :=
  tabulate_counts_and_empty_failure.1 [1, 2, 2] (by decide) (by decide)

/-! ## C8: isRooted -/

theorem parentCounts_foldl (edges : List (Nat × Nat)) (f : Nat → Nat) (v : Nat) :
    (edges.foldl (fun f e => Function.update f e.1 (f e.1 + 1)) f) v =
      f v + edges.countP (fun e => e.1 == v) := by
  induction edges generalizing f with
  | nil => simp
  | cons a t ih =>
      rw [List.foldl_cons, ih, List.countP_cons]
      by_cases h : a.1 = v
      · subst h
        simp [Function.update_apply]
        omega
      · have : ¬ (a.1 == v) = true := by simpa using h
        simp [Function.update_apply, h, this]
        omega

theorem parentCounts_eq_countP (edges : List (Nat × Nat)) (v : Nat) :
    parentCounts edges v = edges.countP (fun e => e.1 == v) := by
  unfold parentCounts
  rw [parentCounts_foldl]
  exact Nat.zero_add _

/-- C8.  For every valid tree, `isRooted` returns true iff `rootEdge` is
set or the root `n + 1` (`n` the number of tips) appears as a parent in at
most two edges. -/
theorem isRooted_iff_rootEdge_or_low_outdegree (phy : Phylo)
    (_hval : ValidPhylo phy) :
    isRooted phy phy.tipLabel.length = true ↔
      (phy.rootEdge ≠ none ∨
        phy.edge.countP (fun e => e.1 == phy.tipLabel.length + 1) ≤ 2) := by
  unfold isRooted
  rw [parentCounts_eq_countP]
  cases h : phy.rootEdge with
  | none => simp [h]
  | some q => simp [h]

/-- Witness for C8 at the concrete tree `(A,(B,C));`. -/
theorem isRooted_iff_rootEdge_or_low_outdegree_witness :
    isRooted exTree3 exTree3.tipLabel.length = true ↔
      (exTree3.rootEdge ≠ none ∨
        exTree3.edge.countP (fun e => e.1 == exTree3.tipLabel.length + 1) ≤ 2) :=
  isRooted_iff_rootEdge_or_low_outdegree exTree3 (by decide)

/-! ## C1, C2, C6: the postorder reorder off-by-one -/

/-- C1.  Reorder is claimed to permute the edge indices with the
(parent, child, length) multiset unchanged.  On the valid tree
`(A,(B,C));` the postorder index list produced by `reorderRcpp` is
`[3, 4, 1, 2]` — `bar_reorderRcpp` stores `L[..] + 1` — which is not a
permutation of the edge indices `0..3`; used 0-based by `_reorder_ape`, it
maps to the rows `[(5,3), undefined, (4,5), (5,2)]`: the edge `(4,1)` is
lost (and an undefined row appears), so the multiset of
(parent, child, length) triples is not preserved. -/
theorem postorder_neworder_not_a_permutation :
    reorderRcpp exTree3.edge 3 4 2 = .ok [3, 4, 1, 2] ∧
    exTree3.edge.length = 4 ∧
    ¬ List.Perm [3, 4, 1, 2] (List.range 4) ∧
    reorderRowsRaw exTree3 .postorder =
      .ok [some (5, 3), none, some (4, 5), some (5, 2)] ∧
    ((4 : Nat), (1 : Nat)) ∈ exTree3.edge ∧
    some ((4 : Nat), (1 : Nat)) ∉ [some (5, 3), none, some (4, 5), some (5, 2)] := by
  refine ⟨by decide, by decide, by decide, by decide, by decide, by decide⟩

/-- C2.  Engine operations that return a tree are claimed to return one
satisfying the data-model invariants.  `reorder(tree, "postorder")` on the
valid tree `(A,(B,C));` returns (not throws) an edge matrix in which the
non-root node 1 appears as a child zero times (the invariant demands
exactly once) and which contains an `undefined` row. -/
theorem reorder_postorder_breaks_child_invariant :
    ValidPhylo exTree3 ∧
    exTree3.edge.countP (fun e => e.2 == 1) = 1 ∧
    reorderRowsRaw exTree3 .postorder =
      .ok [some (5, 3), none, some (4, 5), some (5, 2)] ∧
    (([some ((5 : Nat), (3 : Nat)), none, some (4, 5), some (5, 2)].filterMap
        id).countP (fun e => e.2 == 1) = 0) ∧
    none ∈ [some ((5 : Nat), (3 : Nat)), none, some (4, 5), some (5, 2)] := by
  refine ⟨by decide, by decide, by decide, by decide, by decide⟩

/-- C6.  `propPart` is claimed to return counts with clade 0's count equal
to the number of trees.  It first reorders every tree to postorder, and on
any input tree with two or more internal nodes that reorder produces the
corrupted matrix of `reorder_postorder_breaks_child_invariant`, whose row
reads throw: `propPart` on two valid trees sharing the tip label set
crashes instead of returning counts. -/
theorem propPart_crashes_on_postorder_reorder :
    exTree3.tipLabel = exTree3b.tipLabel ∧
    ValidPhylo exTree3 ∧ ValidPhylo exTree3b ∧
    propPart [exTree3, exTree3b] = .error .undefinedEdgeRow := by
  refine ⟨by decide, by decide, by decide, by decide⟩

/-! ## C5: collapseSingles on the one-tip tree -/

/-- C5.  `collapseSingles` is claimed idempotent on every valid tree.  On
the valid single-tip tree it does not even return: the basal-singleton
loop strips the only edge and then calls `tabulate` on the empty parent
column, which computes `Math.max() = -Infinity` and throws
`RangeError: invalid array length` (the spec's degenerate-case rule says
`n == 1` trees bypass all transformations). -/
theorem collapseSingles_crashes_on_one_tip_tree :
    ValidPhylo oneTipTree ∧
    collapseSingles oneTipTree = .error .rangeInvalidArrayLength := by
  refine ⟨by decide, by decide⟩

/-! ## C9, C4: the tip-resolution prefix of dropTip -/

theorem dropTip_labels_eq_ids (phy : Phylo) (ls : List String)
    (ti sub : Bool) (reb : Nat) (ro : Option Bool) (co : Bool) :
    dropTip phy (.labels ls) ti sub reb ro co =
      dropTip phy (.ids (resolveTipLabels phy ls)) ti sub reb ro co := rfl

theorem dropTip_ids_no_oor (phy : Phylo) (ids : List Nat)
    (ti sub : Bool) (reb : Nat) (ro : Option Bool) (co : Bool)
    (h : ∀ t ∈ ids, t ≤ phy.tipLabel.length) :
    dropTip phy (.ids ids) ti sub reb ro co =
      dropTipResolved phy ids ti sub reb (ro.getD (isRootedNoTipCount phy)) co := by
  have hfil : ids.filter (fun t => phy.tipLabel.length < t) = [] := by
    rw [List.filter_eq_nil_iff]
    intro a ha
    simpa using Nat.not_lt.mpr (h a ha)
  simp [dropTip, hfil]

theorem dropTip_ids_with_oor (phy : Phylo) (ids : List Nat)
    (ti sub : Bool) (reb : Nat) (ro : Option Bool) (co : Bool)
    (h : ∃ t ∈ ids, phy.tipLabel.length < t) :
    dropTip phy (.ids ids) ti sub reb ro co =
      (oorWarning ::
        (dropTipResolved phy (ids.filter (fun t => t ≤ phy.tipLabel.length))
          ti sub reb (ro.getD (isRootedNoTipCount phy)) co).1,
       (dropTipResolved phy (ids.filter (fun t => t ≤ phy.tipLabel.length))
          ti sub reb (ro.getD (isRootedNoTipCount phy)) co).2) := by
  obtain ⟨t, ht, hlt⟩ := h
  have hne : ids.filter (fun t => phy.tipLabel.length < t) ≠ [] := by
    intro hnil
    rw [List.filter_eq_nil_iff] at hnil
    exact hnil t ht (by simpa using hlt)
  have hlen : (ids.filter (fun t => phy.tipLabel.length < t)).length ≠ 0 := by
    simpa [List.length_eq_zero] using hne
  simp [dropTip, hlen]

/-- C9.  `dropTip` with a tip argument resolving to no valid tip id
returns the input tree unchanged: for the empty list, for a label list
with no label occurring in `tipLabel`, and for a non-empty id list whose
entries all exceed the tip count (the last with the out-of-range
warning). -/
theorem dropTip_empty_resolution_identity :
    (∀ (phy : Phylo) (ti sub : Bool) (reb : Nat) (ro : Option Bool) (co : Bool),
      dropTip phy (.ids []) ti sub reb ro co = ([], .ok (some phy))) ∧
    (∀ (phy : Phylo) (ls : List String) (ti sub : Bool) (reb : Nat)
        (ro : Option Bool) (co : Bool),
      (∀ s ∈ ls, jsIndexOf phy.tipLabel s = none) →
      dropTip phy (.labels ls) ti sub reb ro co = ([], .ok (some phy))) ∧
    (∀ (phy : Phylo) (ids : List Nat) (ti sub : Bool) (reb : Nat)
        (ro : Option Bool) (co : Bool),
      ids ≠ [] → (∀ t ∈ ids, phy.tipLabel.length < t) →
      dropTip phy (.ids ids) ti sub reb ro co = ([oorWarning], .ok (some phy))) := by
  refine ⟨fun phy ti sub reb ro co => rfl, ?_, ?_⟩
  · intro phy ls ti sub reb ro co hno
    rw [dropTip_labels_eq_ids]
    have : resolveTipLabels phy ls = [] := by
      rw [resolveTipLabels, List.filterMap_eq_nil_iff]
      intro s hs
      rw [hno s hs]
      rfl
    rw [this]
    rfl
  · intro phy ids ti sub reb ro co hne hall
    rw [dropTip_ids_with_oor phy ids ti sub reb ro co
      ⟨ids.head hne, List.head_mem hne, hall _ (List.head_mem hne)⟩]
    have hfil : ids.filter (fun t => t ≤ phy.tipLabel.length) = [] := by
      rw [List.filter_eq_nil_iff]
      intro a ha
      simpa using Nat.not_le.mpr (hall a ha)
    rw [hfil]
    rfl

/-- Witness for C9: the three parts at the tree `(A,(B,C));` with the
empty id list, the unresolved label list `["X", "Y"]` and the
out-of-range id list `[9, 10]`. -/
theorem dropTip_empty_resolution_identity_witness :
    dropTip exTree3 (.ids []) true false 0 none true = ([], .ok (some exTree3)) ∧
    dropTip exTree3 (.labels ["X", "Y"]) true false 0 none true =
      ([], .ok (some exTree3)) ∧
    dropTip exTree3 (.ids [9, 10]) true false 0 none true =
      ([oorWarning], .ok (some exTree3)) :=
  ⟨dropTip_empty_resolution_identity.1 exTree3 true false 0 none true,
   dropTip_empty_resolution_identity.2.1 exTree3 ["X", "Y"] true false 0 none
     true (by decide),
   dropTip_empty_resolution_identity.2.2 exTree3 [9, 10] true false 0 none
     true (by decide) (by decide)⟩

/-- C4 counterexample.  The claim says a tip label absent from `tipLabel`
makes the call fail with a LookupError; in the code unresolved labels are
mapped to `null` and filtered out, so `dropTip` with the unknown label
"Z" succeeds and returns the tree unchanged (no warning either). -/
theorem dropTip_unknown_label_no_error :
    dropTip exTree3 (.labels ["Z"]) true false 0 none true =
      ([], .ok (some exTree3)) := rfl

/-- C4 (amended).  Tip labels resolve to ids via `tipLabel`, labels not
present being silently filtered out (no error); numeric tip ids larger
than the tip count are filtered out with the non-fatal warning outcome and
the call proceeds exactly as with the remaining in-range ids. -/
theorem dropTip_label_resolution_and_oor_filtering :
    (∀ (phy : Phylo) (ls : List String) (ti sub : Bool) (reb : Nat)
        (ro : Option Bool) (co : Bool),
      dropTip phy (.labels ls) ti sub reb ro co =
        dropTip phy (.ids (resolveTipLabels phy ls)) ti sub reb ro co) ∧
    (∀ (phy : Phylo) (ids : List Nat) (ti sub : Bool) (reb : Nat)
        (ro : Option Bool) (co : Bool),
      (∃ t ∈ ids, phy.tipLabel.length < t) →
      dropTip phy (.ids ids) ti sub reb ro co =
        (oorWarning ::
          (dropTip phy (.ids (ids.filter (fun t => t ≤ phy.tipLabel.length)))
            ti sub reb ro co).1,
         (dropTip phy (.ids (ids.filter (fun t => t ≤ phy.tipLabel.length)))
            ti sub reb ro co).2)) := by
  refine ⟨fun phy ls ti sub reb ro co => dropTip_labels_eq_ids .., ?_⟩
  intro phy ids ti sub reb ro co h
  rw [dropTip_ids_with_oor phy ids ti sub reb ro co h,
    dropTip_ids_no_oor phy (ids.filter (fun t => t ≤ phy.tipLabel.length))
      ti sub reb ro co (fun t ht => of_decide_eq_true (List.mem_filter.mp ht).2)]

/-- Witness for C4: resolution of `["C", "A"]` and filtering of the
out-of-range id in `[1, 9]` on the tree `(A,(B,C));`. -/
theorem dropTip_label_resolution_and_oor_filtering_witness :
    dropTip exTree3 (.labels ["C", "A"]) true false 0 none true =
      dropTip exTree3 (.ids (resolveTipLabels exTree3 ["C", "A"])) true false 0
        none true ∧
    dropTip exTree3 (.ids [1, 9]) true false 0 none true =
      (oorWarning ::
        (dropTip exTree3 (.ids ([1, 9].filter (fun t => t ≤ exTree3.tipLabel.length)))
          true false 0 none true).1,
       (dropTip exTree3 (.ids ([1, 9].filter (fun t => t ≤ exTree3.tipLabel.length)))
          true false 0 none true).2) :=
  ⟨dropTip_label_resolution_and_oor_filtering.1 exTree3 ["C", "A"] true false 0
     none true,
   dropTip_label_resolution_and_oor_filtering.2 exTree3 [1, 9] true false 0
     none true ⟨9, by decide, by decide⟩⟩

/-! ## C3: dropTip on all tips but one -/

theorem eq_singleton_of_mem_of_all {α : Type} (l : List α) (a : α)
    (hnd : l.Nodup) (ha : a ∈ l) (hall : ∀ x ∈ l, x = a) : l = [a] := by
  cases l with
  | nil => cases ha
  | cons x t =>
      have hx : x = a := hall x (List.mem_cons_self x t)
      cases t with
      | nil => rw [hx]
      | cons y t2 =>
          exfalso
          have hy : y = a := hall y (List.mem_cons_of_mem x (List.mem_cons_self y t2))
          have hnx : x ∉ y :: t2 := (List.nodup_cons.mp hnd).1
          exact hnx (by rw [hx, ← hy]; exact List.mem_cons_self y t2)

/-- On `n ≥ 1` tips, a duplicate-free list of `n - 1` in-range tip ids
missing exactly `s` has the complement `[s]` in `1..n`. -/
theorem filter_not_mem_singleton {ids : List Nat} {N s : Nat}
    (hnodup : ids.Nodup) (hrange : ∀ i ∈ ids, 1 ≤ i ∧ i ≤ N)
    (hs1 : 1 ≤ s) (hs2 : s ≤ N) (hsni : s ∉ ids)
    (hlen : ids.length = N - 1) :
    (List.range' 1 N).filter (fun x => !(ids.contains x)) = [s] := by
  have hsub : ids.toFinset ⊆ (Finset.Icc 1 N).erase s := by
    intro x hx
    rw [List.mem_toFinset] at hx
    refine Finset.mem_erase.mpr ⟨?_, Finset.mem_Icc.mpr ⟨(hrange x hx).1, (hrange x hx).2⟩⟩
    intro hxe
    exact hsni (hxe ▸ hx)
  have hcardE : ((Finset.Icc 1 N).erase s).card = N - 1 := by
    rw [Finset.card_erase_of_mem (Finset.mem_Icc.mpr ⟨hs1, hs2⟩), Nat.card_Icc]
    omega
  have hcardI : ids.toFinset.card = N - 1 := by
    rw [List.toFinset_card_of_nodup hnodup, hlen]
  have heq : ids.toFinset = (Finset.Icc 1 N).erase s :=
    Finset.eq_of_subset_of_card_le hsub (by omega)
  have hmem : ∀ x, 1 ≤ x → x ≤ N → x ∉ ids → x = s := by
    intro x h1 hN hni
    by_contra hne
    have hx : x ∈ (Finset.Icc 1 N).erase s :=
      Finset.mem_erase.mpr ⟨hne, Finset.mem_Icc.mpr ⟨h1, hN⟩⟩
    rw [← heq] at hx
    exact hni (List.mem_toFinset.mp hx)
  apply eq_singleton_of_mem_of_all
  · exact (List.nodup_range' 1 N).filter _
  · refine List.mem_filter.mpr ⟨List.mem_range'_1.mpr ⟨hs1, by omega⟩, ?_⟩
    simp [hsni]
  · intro x hx
    have hf := List.mem_filter.mp hx
    have hr := List.mem_range'_1.mp hf.1
    have hni : x ∉ ids := by simpa using hf.2
    exact hmem x hr.1 (by omega) hni

/-- C3.  Dropping all tips but `s` with `trimInternal` returns the
canonical 2-node, 1-edge tree: the single edge length is the length of the
surviving tip's own terminal edge (`iEdge`, the unique edge with child
`s`) — not a root-to-tip sum —, the tip label is carried over, and the
node label (when node labels are present) is the one of `s`'s former
parent `p`. -/
theorem dropTip_all_but_one_tiny_tree
    (phy : Phylo) (ids : List Nat) (s iEdge p : Nat)
    (ro : Option Bool) (co : Bool)
    (_hval : ValidPhylo phy)
    (h2 : 2 ≤ phy.tipLabel.length)
    (hnodup : ids.Nodup)
    (hlen : ids.length = phy.tipLabel.length - 1)
    (hrange : ∀ i ∈ ids, 1 ≤ i ∧ i ≤ phy.tipLabel.length)
    (hs1 : 1 ≤ s) (hs2 : s ≤ phy.tipLabel.length) (hsni : s ∉ ids)
    (hedge : phy.edge[iEdge]? = some (p, s))
    (hfirst : ∀ j, j < iEdge → ∀ e, phy.edge[j]? = some e → e.2 ≠ s) :
    dropTip phy (.ids ids) true false 0 ro co =
      ([], .ok (some
        { edge := [(2, 1)],
          edgeLength := phy.edgeLength.map (fun el => [el.getD iEdge 0]),
          tipLabel := [phy.tipLabel.getD (s - 1) ""],
          nodeLabel := phy.nodeLabel.map
            (fun nl => [nl.getD (p - phy.tipLabel.length - 1) ""]),
          Nnode := 1 })) := by
  rw [dropTip_ids_no_oor phy ids true false 0 ro co (fun t ht => (hrange t ht).2)]
  have hlt : iEdge < phy.edge.length := by
    rcases List.getElem?_eq_some_iff.mp hedge with ⟨h, _⟩
    exact h
  have hfind : phy.edge.findIdx? (fun row => row.2 == s) = some iEdge := by
    rw [List.findIdx?_eq_some_iff_getElem]
    refine ⟨hlt, ?_, ?_⟩
    · have : phy.edge[iEdge] = (p, s) := by
        rcases List.getElem?_eq_some_iff.mp hedge with ⟨h, he⟩
        exact he
      rw [this]
      exact beq_self_eq_true s
    · intro j hji
      have hj2 : j < phy.edge.length := Nat.lt_trans hji hlt
      have hj : phy.edge[j]? = some phy.edge[j] :=
        List.getElem?_eq_getElem hj2
      have := hfirst j hji phy.edge[j] hj
      simpa using this
  have hrow : phy.edge.getD iEdge (0, 0) = (p, s) := by
    rw [List.getD_eq_getElem?_getD, hedge]
    rfl
  have hrem : (List.range' 1 phy.tipLabel.length).filter
      (fun x => !(ids.contains x)) = [s] :=
    filter_not_mem_singleton hnodup hrange hs1 hs2 hsni hlen
  have hne0 : ¬ (ids.length = 0) := by omega
  simp only [dropTipResolved, if_neg hne0, hrem, hfind, hrow]
  have hneN : ¬ (ids.length = phy.tipLabel.length ∧ (phy.Nnode < 3 ∨ True)) := by
    rintro ⟨hc1, -⟩
    omega
  have hN1 : ids.length = phy.tipLabel.length - 1 ∧ True := ⟨hlen, trivial⟩
  rw [if_neg hneN, if_pos hN1]

/-- Witness for C3 at `(A,(B,C));`: drop `[1, 2]`, the survivor is C (tip
3) whose terminal edge is row 3 with length 4 and parent 5. -/
theorem dropTip_all_but_one_tiny_tree_witness :
    dropTip exTree3 (.ids [1, 2]) true false 0 none true =
      ([], .ok (some
        { edge := [(2, 1)],
          edgeLength := exTree3.edgeLength.map (fun el => [el.getD 3 0]),
          tipLabel := [exTree3.tipLabel.getD 2 ""],
          nodeLabel := exTree3.nodeLabel.map
            (fun nl => [nl.getD (5 - exTree3.tipLabel.length - 1) ""]),
          Nnode := 1 })) :=
  dropTip_all_but_one_tiny_tree exTree3 [1, 2] 3 3 5 none true
    (by decide) (by decide) (by decide) (by decide) (by decide)
    (by decide) (by decide) (by decide) (by decide) (by decide)

/-! ## C7: unrootPhylo -/

theorem degBump_length (tot : Nat) (d : List Nat) (w : Nat) :
    (degBump tot d w).length = d.length := by
  unfold degBump
  split <;> simp

theorem degBump_getD (tot : Nat) (d : List Nat) (w v : Nat)
    (hd : d.length = tot) (h1 : 1 ≤ v) (h2 : v ≤ tot) :
    (degBump tot d w).getD (v - 1) 0 =
      d.getD (v - 1) 0 + (if w == v then 1 else 0) := by
  unfold degBump
  by_cases hw : w = v
  · subst hw
    rw [if_pos ⟨h1, h2⟩]
    have hlt : w - 1 < d.length := by omega
    simp [List.getD_eq_getElem?_getD, List.getElem?_set_self hlt,
      List.getElem?_eq_getElem hlt]
  · have hne : ¬ (w == v) = true := by simpa using hw
    simp only [hne, if_false]
    split
    · next hc =>
        have : w - 1 ≠ v - 1 := by omega
        simp [List.getD_eq_getElem?_getD, List.getElem?_set_ne this]
    · simp

theorem degreeFold_length (edges : List (Nat × Nat)) (tot : Nat)
    (acc : List Nat) :
    (edges.foldl
      (fun d e => degBump tot (degBump tot d e.1) e.2) acc).length =
      acc.length := by
  induction edges generalizing acc with
  | nil => rfl
  | cons a t ih =>
      rw [List.foldl_cons, ih, degBump_length, degBump_length]

theorem degreeTable_length (edges : List (Nat × Nat)) (tot : Nat) :
    (degreeTable edges tot).length = tot := by
  unfold degreeTable
  rw [degreeFold_length, List.length_replicate]

theorem degreeFold_getD (edges : List (Nat × Nat)) (tot : Nat)
    (acc : List Nat) (hacc : acc.length = tot) (v : Nat)
    (h1 : 1 ≤ v) (h2 : v ≤ tot) :
    (edges.foldl
      (fun d e => degBump tot (degBump tot d e.1) e.2) acc).getD (v - 1) 0 =
      acc.getD (v - 1) 0 + edges.countP (fun e => e.1 == v) +
        edges.countP (fun e => e.2 == v) := by
  induction edges generalizing acc with
  | nil => simp
  | cons a t ih =>
      rw [List.foldl_cons]
      have hlen : (degBump tot (degBump tot acc a.1) a.2).length = tot := by
        rw [degBump_length, degBump_length, hacc]
      rw [ih _ hlen, degBump_getD tot _ a.2 v (by rw [degBump_length, hacc]) h1 h2,
        degBump_getD tot acc a.1 v hacc h1 h2, List.countP_cons, List.countP_cons]
      omega

theorem degreeTable_getD (edges : List (Nat × Nat)) (tot v : Nat)
    (h1 : 1 ≤ v) (h2 : v ≤ tot) :
    (degreeTable edges tot).getD (v - 1) 0 =
      edges.countP (fun e => e.1 == v) + edges.countP (fun e => e.2 == v) := by
  unfold degreeTable
  rw [degreeFold_getD edges tot _ (List.length_replicate tot 0) v h1 h2]
  have : (List.replicate tot 0).getD (v - 1) 0 = 0 := by
    simp [List.getD_eq_getElem?_getD, List.getElem?_replicate]
    split <;> rfl
  omega

/-- C7.  `unrootPhylo` (with the default `collapseFirst = false`,
`keepRootEdge = false`): (a) every tree with fewer than three edges fails
with the degenerate-tree error; (b) every tree with at least three edges
but no node of degree at least three fails with the constant-degree error;
(c) a tree that is not rooted (no `rootEdge`, root out-degree above two)
is returned unchanged. -/
theorem unrootPhylo_guards_and_unrooted_noop :
    (∀ (phy : Phylo) (n : Nat), phy.edge.length < 3 →
      unrootPhylo phy n = .error .tooFewEdges) ∧
    (∀ (phy : Phylo) (n : Nat), 3 ≤ phy.edge.length →
      (∀ v, 1 ≤ v → v ≤ n + phy.Nnode →
        phy.edge.countP (fun e => e.1 == v) +
          phy.edge.countP (fun e => e.2 == v) < 3) →
      unrootPhylo phy n = .error .allNodesSingleton) ∧
    (∀ (phy : Phylo) (n : Nat), n = phy.tipLabel.length → 1 ≤ phy.Nnode →
      phy.rootEdge = none →
      2 < phy.edge.countP (fun e => e.1 == n + 1) →
      unrootPhylo phy n = .ok phy) := by
  refine ⟨?_, ?_, ?_⟩
  · intro phy n h
    simp only [unrootPhylo]
    rw [if_neg (by decide : ¬ (false = true))]
    simp only [pure_bind]
    rw [if_pos h]
    rfl
  · intro phy n h3 hdeg
    have hall : (degreeTable phy.edge (n + phy.Nnode)).all
        (fun c => decide (c < 3)) = true := by
      rw [List.all_eq_true]
      intro x hx
      obtain ⟨i, hi, rfl⟩ := List.mem_iff_getElem.mp hx
      have hi' : i < n + phy.Nnode := by
        rwa [degreeTable_length] at hi
      have := degreeTable_getD phy.edge (n + phy.Nnode) (i + 1)
        (Nat.le_add_left 1 i) (by omega)
      rw [Nat.add_sub_cancel] at this
      have hge : (degreeTable phy.edge (n + phy.Nnode)).getD i 0 =
          (degreeTable phy.edge (n + phy.Nnode))[i] := List.getD_eq_getElem _ 0 hi
      rw [← hge, this]
      exact decide_eq_true (hdeg (i + 1) (Nat.le_add_left 1 i) (by omega))
    simp only [unrootPhylo]
    rw [if_neg (by decide : ¬ (false = true))]
    simp only [pure_bind]
    rw [if_neg (Nat.not_lt.mpr h3), if_pos hall]
    rfl
  · intro phy n _hn hN hre hout
    have h3 : ¬ (phy.edge.length < 3) := by
      have hcle : phy.edge.countP (fun e => e.1 == n + 1) ≤ phy.edge.length :=
        List.countP_le_length _
      omega
    have hroot : (degreeTable phy.edge (n + phy.Nnode)).getD n 0 =
        phy.edge.countP (fun e => e.1 == n + 1) +
          phy.edge.countP (fun e => e.2 == n + 1) := by
      have := degreeTable_getD phy.edge (n + phy.Nnode) (n + 1)
        (Nat.le_add_left 1 n) (by omega)
      rwa [Nat.add_sub_cancel] at this
    have hnall : (degreeTable phy.edge (n + phy.Nnode)).all
        (fun c => decide (c < 3)) = false := by
      rw [← Bool.not_eq_true, List.all_eq_true]
      intro hc
      have hilen : n < (degreeTable phy.edge (n + phy.Nnode)).length := by
        rw [degreeTable_length]
        omega
      have hmem := hc _ (List.getElem_mem hilen)
      have hge : (degreeTable phy.edge (n + phy.Nnode)).getD n 0 =
          (degreeTable phy.edge (n + phy.Nnode))[n] := List.getD_eq_getElem _ 0 hilen
      rw [← hge, hroot] at hmem
      have := of_decide_eq_true hmem
      omega
    have hrooted : isRooted phy n = false := by
      unfold isRooted
      rw [hre, parentCounts_eq_countP]
      simp [Nat.not_le.mpr hout]
    simp only [unrootPhylo]
    rw [if_neg (by decide : ¬ (false = true))]
    simp only [pure_bind]
    rw [if_neg h3, hnall, if_neg (by decide : ¬ (false = true))]
    have hX : (if phy.rootEdge ≠ none ∧ ¬ (false = true)
        then { phy with rootEdge := none } else phy) = phy :=
      if_neg (by simp [hre])
    rw [hX, hrooted]
    rw [if_pos (by decide : ¬ (false = true))]
    rfl

/-- Witness for C7: the two-edge tree fails the edge-count guard, the
chain fails the degree guard, the three-tip star (unrooted) is returned
unchanged. -/
theorem unrootPhylo_guards_and_unrooted_noop_witness :
    unrootPhylo twoEdgeTree 2 = .error .tooFewEdges ∧
    unrootPhylo chainTree 2 = .error .allNodesSingleton ∧
    unrootPhylo starTree3 3 = .ok starTree3 :=
  ⟨unrootPhylo_guards_and_unrooted_noop.1 twoEdgeTree 2 (by decide),
   unrootPhylo_guards_and_unrooted_noop.2.1 chainTree 2 (by decide)
     (by decide),
   unrootPhylo_guards_and_unrooted_noop.2.2 starTree3 3 (by decide)
     (by decide) (by decide) (by decide)⟩

end Miniape
